import Mathlib

/-!
# Verification of the basil-youtube-AI session/audio core

Shallow embedding of the backend's audio processor, barge-in manager,
command router, enhanced VAD, and orchestrator caption handling, with
theorems checking the natural-language specification against the code.

Numeric conventions: JavaScript `number` arithmetic that the code keeps
exact on the inputs we reason about is modelled over `ℚ`; the enhanced
VAD, whose per-frame pipeline goes through `Math.sqrt`/`Math.log10`, is
modelled over `ℝ`.  `Buffer`s are lists of bytes (`List ℕ`, each < 256).
-/

namespace Basil

/-- The closed speaker set from `@basil/shared`: `"you" | "claude" | "guest"`.
The spec calls these human / host / guest. -/
inductive SpeakerId where
  | you
  | claude
  | guest
deriving DecidableEq, Repr

/-- Orb presentation states (`OrbState` in `@basil/shared`). -/
inductive OrbState where
  | idle
  | listening
  | thinking
  | speaking
  | muted
  | error
deriving DecidableEq, Repr

/-! ## Audio processor
`src/apps/backend/src/adapters/factory.ts`, class `AudioProcessor`. -/

/-- `DuckingCurve` from factory.ts. -/
inductive DuckingCurve where
  | linear
  | exponential
  | logarithmic
deriving DecidableEq, Repr

/-- `GainRampState` from factory.ts (`rampSamples`/`elapsedSamples` are
sample counts, hence `ℕ`; gains are JS numbers kept exact as `ℚ`). -/
structure GainRampState where
  active : Bool
  startGain : ℚ
  targetGain : ℚ
  currentGain : ℚ
  rampSamples : ℕ
  elapsedSamples : ℕ
  curve : DuckingCurve
deriving DecidableEq, Repr

/-- Ducking configuration after constructor defaulting.  The source stores
`reductionDb` (dB) and converts on use via `dbToGain(db) = Math.pow(10, db/20)`;
that conversion is irrational for the preset profiles (−6/−12/−18 dB), so the
embedding carries the converted linear-domain value `reductionGain` exactly,
as the parameter produced by `dbToGain(getDuckingReduction())`. -/
structure DuckingConfigQ where
  reductionGain : ℚ
  rampUpMs : ℚ
  rampDownMs : ℚ
  curve : DuckingCurve
deriving DecidableEq, Repr

/-- `AudioProcessorConfig` after constructor defaulting. -/
structure AudioProcessorCfg where
  sampleRate : ℕ
  ducking : DuckingConfigQ
deriving DecidableEq, Repr

/-- The source's `dbToGain`, `Math.pow(10, db/20)`, at the exponents
`db = 20·k` where the value is exactly rational (e.g. `dbToGainTwentyK 1 = 10`
is `dbToGain(20)`, a custom `reductionDb` of +20 dB). -/
def dbToGainTwentyK (k : ℤ) : ℚ := (10 : ℚ) ^ k

/-- Initial `rampState` from the `AudioProcessor` constructor. -/
def initRamp (cfg : AudioProcessorCfg) : GainRampState :=
  { active := false
    startGain := 1
    targetGain := 1
    currentGain := 1
    rampSamples := 0
    elapsedSamples := 0
    curve := cfg.ducking.curve }

/-- JS `Math.round` on the exact rationals we use: round half toward +∞. -/
def jsRound (x : ℚ) : ℤ := Int.floor (x + 1 / 2)

/-- `Math.max(-32768, Math.min(32767, v))` from `processBuffer`. -/
def clamp16 (v : ℤ) : ℤ := max (-32768) (min 32767 v)

/-- The `switch (curve)` in `computeRampGain`: curve applied to progress. -/
def curveApply : DuckingCurve → ℚ → ℚ
  | .linear, p => p
  | .exponential, p => p * p
  | .logarithmic, p => 1 - (1 - p) ^ 2

/-- `computeRampGain()`: progress `elapsedSamples / rampSamples`, curved, then
linear interpolation from `startGain` to `targetGain`. -/
def computeRampGain (st : GainRampState) : ℚ :=
  st.startGain +
    (st.targetGain - st.startGain) *
      curveApply st.curve ((st.elapsedSamples : ℚ) / (st.rampSamples : ℚ))

/-- One iteration of the per-sample loop in `processBuffer`: compute the gain
for this sample, advance the ramp (committing `targetGain` and clearing
`active` once `elapsedSamples` reaches `rampSamples`), and produce the scaled,
rounded, saturated sample. -/
def sampleStep (st : GainRampState) (s : ℤ) : GainRampState × ℤ :=
  let gain := if st.active then computeRampGain st else st.currentGain
  let st' :=
    if st.active then
      if st.elapsedSamples + 1 ≥ st.rampSamples then
        { st with active := false, currentGain := st.targetGain,
                  elapsedSamples := st.elapsedSamples + 1 }
      else
        { st with currentGain := gain, elapsedSamples := st.elapsedSamples + 1 }
    else st
  (st', clamp16 (jsRound ((s : ℚ) * gain)))

/-- The per-sample loop over a decoded sample list. -/
def processSamples : GainRampState → List ℤ → GainRampState × List ℤ
  | st, [] => (st, [])
  | st, s :: rest =>
    let p := sampleStep st s
    let q := processSamples p.1 rest
    (q.1, p.2 :: q.2)

/-- `buffer.readInt16LE` byte-pair decoding (little-endian, two's complement). -/
def decode16 (b0 b1 : ℕ) : ℤ :=
  let v := b0 + 256 * b1
  if 32768 ≤ v then (v : ℤ) - 65536 else (v : ℤ)

/-- `buffer.writeInt16LE` byte-pair encoding of an in-range value. -/
def encode16 (v : ℤ) : List ℕ :=
  [(v % 65536).toNat % 256, (v % 65536).toNat / 256]

/-- The successive `readInt16LE(i*2)` reads of a buffer (complete pairs only;
a trailing odd byte yields no further sample). -/
def readSamples : List ℕ → List ℤ
  | b0 :: b1 :: rest => decode16 b0 b1 :: readSamples rest
  | _ => []

/-- The successive `writeInt16LE` writes laid out as bytes. -/
def writeSamples (vs : List ℤ) : List ℕ := vs.flatMap encode16

/-- `processBuffer(buffer)`.  The fast path returns the input when no ramp is
active and the gain is exactly 1.  Otherwise the loop runs
`i < buffer.length / 2` with a *fractional* bound, so for a buffer of odd byte
length the final iteration calls `readInt16LE(buffer.length - 1)`, which
throws `ERR_OUT_OF_RANGE` after the preceding complete samples have already
advanced the ramp state.  The even case processes every sample. -/
def processBuffer (st : GainRampState) (buf : List ℕ) :
    GainRampState × Except String (List ℕ) :=
  if st.active = false ∧ st.currentGain = 1 then (st, .ok buf)
  else
    let r := processSamples st (readSamples buf)
    if buf.length % 2 = 0 then (r.1, .ok (writeSamples r.2))
    else (r.1, .error "ERR_OUT_OF_RANGE")

/-- `getDuckingReduction()` composed with `dbToGain`: the linear target gain
used by `startDucking` (see `DuckingConfigQ.reductionGain`). -/
def duckTargetGain (cfg : AudioProcessorCfg) : ℚ := cfg.ducking.reductionGain

/-- `startDucking(immediate?)`. -/
def startDucking (cfg : AudioProcessorCfg) (st : GainRampState)
    (immediate : Bool) : GainRampState :=
  let targetGain := duckTargetGain cfg
  if immediate then
    { active := false, startGain := targetGain, targetGain := targetGain,
      currentGain := targetGain, rampSamples := 0, elapsedSamples := 0,
      curve := cfg.ducking.curve }
  else
    let rampSamples := (Int.floor ((cfg.sampleRate : ℚ) / 1000 * cfg.ducking.rampUpMs)).toNat
    { active := true, startGain := st.currentGain, targetGain := targetGain,
      currentGain := st.currentGain, rampSamples := rampSamples,
      elapsedSamples := 0, curve := cfg.ducking.curve }

/-- `stopDucking(immediate?)`. -/
def stopDucking (cfg : AudioProcessorCfg) (st : GainRampState)
    (immediate : Bool) : GainRampState :=
  if immediate then
    { active := false, startGain := 1, targetGain := 1, currentGain := 1,
      rampSamples := 0, elapsedSamples := 0, curve := cfg.ducking.curve }
  else
    let rampSamples := (Int.floor ((cfg.sampleRate : ℚ) / 1000 * cfg.ducking.rampDownMs)).toNat
    { active := true, startGain := st.currentGain, targetGain := 1,
      currentGain := st.currentGain, rampSamples := rampSamples,
      elapsedSamples := 0, curve := cfg.ducking.curve }

/-- A call against one `AudioProcessor`. -/
inductive DuckOp where
  | start (immediate : Bool)
  | stop (immediate : Bool)
  | process (buf : List ℕ)

/-- State effect of one call (for `process`, the ramp state a call leaves
behind — also on the odd-length error path, where the completed samples have
already advanced it). -/
def applyDuckOp (cfg : AudioProcessorCfg) (st : GainRampState) : DuckOp → GainRampState
  | .start imm => startDucking cfg st imm
  | .stop imm => stopDucking cfg st imm
  | .process buf => (processBuffer st buf).1

/-- Run a call sequence from the constructor's initial state. -/
def runDuckOps (cfg : AudioProcessorCfg) (ops : List DuckOp) : GainRampState :=
  ops.foldl (applyDuckOp cfg) (initRamp cfg)

/-! ## Orchestrator: static gain, captions, snapshots
`src/apps/backend/src/orchestrator-v2.ts`. -/

/-- `ProductionOrchestrator.applyGain`: scale complete 16-bit samples, copying
a trailing odd byte through unchanged (`scaled[i] = buffer[i]`). -/
def applyGain : List ℕ → ℚ → List ℕ
  | [], _ => []
  | [b], _ => [b]
  | b0 :: b1 :: rest, gain =>
    encode16 (clamp16 (jsRound ((decode16 b0 b1 : ℚ) * gain))) ++ applyGain rest gain

/-- `SharedScreenState` from `@basil/shared`. -/
inductive SharedScreenState where
  | conversation
  | thinking (speaker : SpeakerId) (durationMs : ℕ) (startedAt : ℕ) (endsAt : ℕ)
deriving DecidableEq, Repr

/-- `CaptionPayload` (the `id` is an opaque UUID). -/
structure CaptionPayload where
  id : ℕ
  speaker : SpeakerId
  text : String
  timestamp : ℕ
deriving DecidableEq, Repr

/-- `MAX_CAPTION_HISTORY` (orchestrator-v2.ts line 28). -/
def MAX_CAPTION_HISTORY : ℕ := 20

/-- `CAPTION_SNAPSHOT_LIMIT` (orchestrator-v2.ts line 29). -/
def CAPTION_SNAPSHOT_LIMIT : ℕ := 6

/-- The orchestrator fields that feed `snapshot()`. -/
structure OrchestratorPresentation where
  orbStates : SpeakerId → OrbState
  captions : List CaptionPayload
  autopilot : Bool
  sharedScreen : SharedScreenState

/-- `addCaption`: prepend, then `slice(0, MAX_CAPTION_HISTORY)`. -/
def addCaption (st : OrchestratorPresentation) (c : CaptionPayload) :
    OrchestratorPresentation :=
  { st with captions := (c :: st.captions).take MAX_CAPTION_HISTORY }

/-- `OrchestratorStateSnapshot` as published to clients. -/
structure StateSnapshot where
  orbStates : SpeakerId → OrbState
  captions : List CaptionPayload
  autopilot : Bool
  sharedScreen : SharedScreenState

/-- `snapshot()`: copies of the orb states, the most recent
`CAPTION_SNAPSHOT_LIMIT` captions, the autopilot flag, the shared screen. -/
def snapshot (st : OrchestratorPresentation) : StateSnapshot :=
  { orbStates := st.orbStates
    captions := st.captions.take CAPTION_SNAPSHOT_LIMIT
    autopilot := st.autopilot
    sharedScreen := st.sharedScreen }

/-- The spec-side gain at sample position `j` of a process call entered in
ramp state `st`: the held `currentGain` when no ramp is active, the
curve-interpolated ramp value at position `j` while the ramp is still running
there, and the committed `targetGain` for positions after the ramp runs out
mid-buffer. -/
def gainAtPos (st : GainRampState) (j : ℕ) : ℚ :=
  if st.active then
    if st.elapsedSamples + j < st.rampSamples then
      st.startGain +
        (st.targetGain - st.startGain) *
          curveApply st.curve (((st.elapsedSamples + j : ℕ) : ℚ) / (st.rampSamples : ℚ))
    else st.targetGain
  else st.currentGain

/-- The 16-bit little-endian sample at position `j` of a byte buffer
(`readInt16LE(2*j)`). -/
def readAt (buf : List ℕ) (j : ℕ) : ℤ :=
  decode16 (buf.getD (2 * j) 0) (buf.getD (2 * j + 1) 0)

/-- Projection of the bytes a successful `processBuffer` call returns. -/
def duckedOut (st : GainRampState) (buf : List ℕ) : List ℕ :=
  match (processBuffer st buf).2 with
  | .ok o => o
  | .error _ => []

/-- The `GainRamp` invariant stated in the spec data model: linear-domain
gains in `[0, 1]`, and `0 ≤ elapsed_samples ≤ ramp_samples_total` while a
ramp is active (the lower bounds are by the `ℕ` representation). -/
def RampInv (st : GainRampState) : Prop :=
  0 ≤ st.currentGain ∧ st.currentGain ≤ 1 ∧
  0 ≤ st.startGain ∧ st.startGain ≤ 1 ∧
  0 ≤ st.targetGain ∧ st.targetGain ≤ 1 ∧
  (st.active = true → st.elapsedSamples ≤ st.rampSamples)

/-- A processor configured with the custom profile at `reductionDb = +20`,
whose linear gain `dbToGain(20) = 10` is exact; ramp times and curve are the
constructor defaults. -/
def cfgCustomPlus20 : AudioProcessorCfg :=
  { sampleRate := 48000
    ducking := { reductionGain := dbToGainTwentyK 1, rampUpMs := 50,
                 rampDownMs := 150, curve := .exponential } }

/-- A processor configured with the custom profile at `reductionDb = −20`,
whose linear gain `dbToGain(−20) = 1/10` is exact; ramp times and curve are
the constructor defaults. -/
def cfgCustomMinus20 : AudioProcessorCfg :=
  { sampleRate := 48000
    ducking := { reductionGain := dbToGainTwentyK (-1), rampUpMs := 50,
                 rampDownMs := 150, curve := .exponential } }

/-! ## Barge-in manager
`src/apps/backend/src/services/barge-in-manager.ts`.  Wall-clock times
(`Date.now()`) are supplied as explicit `ℕ` timestamps; the single
`setTimeout` grace timer is modelled as an optional armed closure whose
expiry is an explicit input event, and `clearTimeout` removes it.  Callback
invocations are collected as an output list. -/

/-- `BargeInMode`. -/
inductive BargeInMode where
  | immediate
  | graceful
  | sentenceComplete
  | disabled
deriving DecidableEq, Repr

/-- `BargeInPriority`. -/
inductive BargeInPriority where
  | low
  | medium
  | high
deriving DecidableEq, Repr

/-- `Required<BargeInConfig>` after constructor defaulting. -/
structure BargeInConfig where
  mode : BargeInMode
  gracePeriodMs : ℕ
  sentenceCompletionMaxMs : ℕ
  priority : BargeInPriority
  allowPartialInterruption : Bool
  duckingEnabled : Bool
  duckingLeadTimeMs : ℕ
deriving DecidableEq, Repr

/-- The constructor defaults of `BargeInManager`. -/
def defaultBargeInConfig : BargeInConfig :=
  { mode := .graceful, gracePeriodMs := 300, sentenceCompletionMaxMs := 2000,
    priority := .medium, allowPartialInterruption := true,
    duckingEnabled := true, duckingLeadTimeMs := 150 }

/-- The three `BargeInEvent` type tags. -/
inductive BargeInEventKind where
  | start
  | complete
  | cancelled
deriving DecidableEq, Repr

/-- `BargeInEvent`. -/
structure BargeInEvent where
  type : BargeInEventKind
  timestamp : ℕ
  interrupter : SpeakerId
  interrupted : List SpeakerId
  mode : BargeInMode
  confidence : ℚ
  gracePeriodUsed : Bool
  duckingApplied : Bool

/-- Per-speaker `SpeakerState`. -/
structure SpeakerState where
  id : SpeakerId
  speaking : Bool
  priority : BargeInPriority
  startedAt : Option ℕ
  lastActivityAt : Option ℕ
  allowInterruption : Bool

/-- `pendingBargeIn`. -/
structure PendingBargeIn where
  interrupter : SpeakerId
  confidence : ℚ
  scheduledAt : ℕ

/-- The armed grace/sentence timer: the arguments captured by the scheduled
`setTimeout` callback. -/
structure GraceTimer where
  interrupter : SpeakerId
  targets : List SpeakerId
  confidence : ℚ

/-- The `BargeInManager` state (the optional `EventLogger` is external). -/
structure BargeInManager where
  config : BargeInConfig
  speakerStates : SpeakerId → SpeakerState
  graceTimer : Option GraceTimer
  pendingBargeIn : Option PendingBargeIn
  bargeInHistory : List BargeInEvent

/-- The callback invocations (`onBargeInStart`, `onBargeInComplete`,
`onBargeInCancelled`, `onDuckingRequest`) a call fires, in order. -/
inductive BargeInOutput where
  | bargeInStart (interrupter : SpeakerId) (interrupted : List SpeakerId)
  | bargeInComplete (interrupter : SpeakerId) (interrupted : List SpeakerId)
  | bargeInCancelled
  | duckingRequest (speakers : List SpeakerId) (enable : Bool)
deriving DecidableEq, Repr

/-- The constructor's speaker-state map: every speaker starts not speaking,
`medium` priority, interruption allowed. -/
def initBargeIn (cfg : BargeInConfig) : BargeInManager :=
  { config := cfg
    speakerStates := fun id =>
      { id := id, speaking := false, priority := .medium,
        startedAt := none, lastActivityAt := none, allowInterruption := true }
    graceTimer := none
    pendingBargeIn := none
    bargeInHistory := [] }

/-- `maxHistorySize`. -/
def maxHistorySize : ℕ := 100

/-- The iteration order of `speakerStates.values()` (insertion order of the
constructor loop). -/
def speakerOrder : List SpeakerId := [.you, .claude, .guest]

/-- `getActiveSpeakers()`. -/
def getActiveSpeakers (m : BargeInManager) : List SpeakerId :=
  (speakerOrder.filter (fun s => (m.speakerStates s).speaking))

/-- `getPriorityLevel(speaker)`: the human is 100; agents map their stored
priority (the missing-state and fall-through branches are unreachable with
the total speaker map). -/
def getPriorityLevel (m : BargeInManager) (s : SpeakerId) : ℕ :=
  if s = .you then 100
  else
    match (m.speakerStates s).priority with
    | .high => 75
    | .medium => 50
    | .low => 25

/-- `logEvent`: append, then trim the oldest entry past `maxHistorySize`
(the external event-logger side effect is out of scope). -/
def logBargeInEvent (h : List BargeInEvent) (e : BargeInEvent) : List BargeInEvent :=
  let h2 := h ++ [e]
  if maxHistorySize < h2.length then h2.tail else h2

/-- Update one speaker's entry in the map. -/
def setSpeaker (m : BargeInManager) (s : SpeakerId) (f : SpeakerState → SpeakerState) :
    BargeInManager :=
  { m with speakerStates := fun x => if x = s then f (m.speakerStates x) else m.speakerStates x }

/-- The state bookkeeping at the top of `onSpeechStart`: set `speaking`,
`startedAt`, `lastActivityAt`. -/
def markSpeaking (m : BargeInManager) (s : SpeakerId) (now : ℕ) : BargeInManager :=
  setSpeaker m s (fun st =>
    { st with speaking := true, startedAt := some now, lastActivityAt := some now })

/-- `executeBargeIn`: log and fire the start event, flip every interrupted
speaker's `speaking` to false, log and fire the complete event, clear the
pending barge-in. -/
def executeBargeIn (m : BargeInManager) (interrupter : SpeakerId)
    (interrupted : List SpeakerId) (confidence : ℚ) (gracePeriodUsed : Bool)
    (now : ℕ) : BargeInManager × List BargeInOutput :=
  let ev : BargeInEvent :=
    { type := .start, timestamp := now, interrupter := interrupter,
      interrupted := interrupted, mode := m.config.mode, confidence := confidence,
      gracePeriodUsed := gracePeriodUsed, duckingApplied := m.config.duckingEnabled }
  let m1 := { m with bargeInHistory := logBargeInEvent m.bargeInHistory ev }
  let m2 := interrupted.foldl (fun acc s => setSpeaker acc s (fun st => { st with speaking := false })) m1
  let m3 := { m2 with
    bargeInHistory := logBargeInEvent m2.bargeInHistory { ev with type := .complete, timestamp := now }
    pendingBargeIn := none }
  (m3, [.bargeInStart interrupter interrupted, .bargeInComplete interrupter interrupted])

/-- `cancelBargeIn`: clear the grace timer; if a barge-in is pending, record
a cancelled event and fire `onBargeInCancelled`; clear the pending barge-in.
(No ducking-off request is issued here — see `c3_cancellation_bug`.) -/
def cancelBargeIn (m : BargeInManager) (now : ℕ) : BargeInManager × List BargeInOutput :=
  let m1 := { m with graceTimer := none }
  match m1.pendingBargeIn with
  | some p =>
    let ev : BargeInEvent :=
      { type := .cancelled, timestamp := now, interrupter := p.interrupter,
        interrupted := [], mode := m1.config.mode, confidence := p.confidence,
        gracePeriodUsed := false, duckingApplied := false }
    ({ m1 with bargeInHistory := logBargeInEvent m1.bargeInHistory ev,
               pendingBargeIn := none }, [.bargeInCancelled])
  | none => ({ m1 with pendingBargeIn := none }, [])

/-- `scheduleGracefulBargeIn` / `scheduleSentenceCompleteBargeIn` (identical
state logic; they differ only in the timeout duration, which is not part of
the state machine): duck immediately if enabled, record the pending barge-in,
re-arm the single timer. -/
def scheduleDeferredBargeIn (m : BargeInManager) (interrupter : SpeakerId)
    (targets : List SpeakerId) (confidence : ℚ) (now : ℕ) :
    BargeInManager × List BargeInOutput :=
  let outs := if m.config.duckingEnabled then [BargeInOutput.duckingRequest targets true] else []
  ({ m with
      pendingBargeIn := some { interrupter := interrupter, confidence := confidence,
                               scheduledAt := now }
      graceTimer := some { interrupter := interrupter, targets := targets,
                           confidence := confidence } }, outs)

/-- `initiateBargeIn`: filter to interruptible targets, authorize
(`interrupterPriority >= targetPriority || interrupter === "you"` for every
remaining target), then branch on the mode. -/
def initiateBargeIn (m : BargeInManager) (interrupter : SpeakerId)
    (targets : List SpeakerId) (confidence : ℚ) (now : ℕ) :
    BargeInManager × List BargeInOutput :=
  let allowedTargets := targets.filter (fun t => (m.speakerStates t).allowInterruption)
  if allowedTargets = [] then (m, [])
  else
    let interrupterPriority := getPriorityLevel m interrupter
    let canInterrupt := allowedTargets.all
      (fun t => decide (getPriorityLevel m t ≤ interrupterPriority) || decide (interrupter = .you))
    if canInterrupt = false then (m, [])
    else
      match m.config.mode with
      | .immediate => executeBargeIn m interrupter allowedTargets confidence false now
      | .graceful => scheduleDeferredBargeIn m interrupter allowedTargets confidence now
      | .sentenceComplete => scheduleDeferredBargeIn m interrupter allowedTargets confidence now
      | .disabled => (m, [])

/-- `onSpeechStart(speaker, confidence)`. -/
def onSpeechStart (m : BargeInManager) (s : SpeakerId) (confidence : ℚ) (now : ℕ) :
    BargeInManager × List BargeInOutput :=
  let m1 := markSpeaking m s now
  let activeSpeakers := (getActiveSpeakers m1).filter (fun x => x ≠ s)
  if activeSpeakers ≠ [] ∧ m1.config.mode ≠ .disabled then
    initiateBargeIn m1 s activeSpeakers confidence now
  else (m1, [])

/-- `onSpeechEnd(speaker, confidence)`. -/
def onSpeechEnd (m : BargeInManager) (s : SpeakerId) (now : ℕ) :
    BargeInManager × List BargeInOutput :=
  let m1 := setSpeaker m s (fun st =>
    { st with speaking := false, lastActivityAt := some now })
  if (m1.pendingBargeIn.map PendingBargeIn.interrupter) = some s then
    cancelBargeIn m1 now
  else (m1, [])

/-- Expiry of the armed grace/sentence timer (the `setTimeout` callback): if
the interrupter still speaks, execute; otherwise cancel and — only here —
issue the ducking-off request. -/
def onGraceTimerFire (m : BargeInManager) (now : ℕ) :
    BargeInManager × List BargeInOutput :=
  match m.graceTimer with
  | none => (m, [])
  | some t =>
    let m0 := { m with graceTimer := none }
    if (m0.speakerStates t.interrupter).speaking then
      executeBargeIn m0 t.interrupter t.targets t.confidence true now
    else
      let r := cancelBargeIn m0 now
      (r.1, r.2 ++ (if m0.config.duckingEnabled
                    then [BargeInOutput.duckingRequest t.targets false] else []))

/-- The inputs a `BargeInManager` reacts to. -/
inductive BargeInInput where
  | speechStart (s : SpeakerId) (confidence : ℚ)
  | speechEnd (s : SpeakerId) (confidence : ℚ)
  | setPriority (s : SpeakerId) (p : BargeInPriority)
  | setAllow (s : SpeakerId) (allow : Bool)
  | graceTimerFire

/-- Dispatch one timestamped input. -/
def bargeStep (m : BargeInManager) : ℕ × BargeInInput → BargeInManager × List BargeInOutput
  | (now, .speechStart s c) => onSpeechStart m s c now
  | (now, .speechEnd s _) => onSpeechEnd m s now
  | (_, .setPriority s p) => (setSpeaker m s (fun st => { st with priority := p }), [])
  | (_, .setAllow s allow) =>
    (setSpeaker m s (fun st => { st with allowInterruption := allow }), [])
  | (now, .graceTimerFire) => onGraceTimerFire m now

/-- Run a timestamped input sequence, accumulating the fired callbacks. -/
def bargeRun (m : BargeInManager) : List (ℕ × BargeInInput) →
    BargeInManager × List BargeInOutput
  | [] => (m, [])
  | ev :: rest =>
    let r := bargeStep m ev
    let q := bargeRun r.1 rest
    (q.1, r.2 ++ q.2)

/-- The interruptible speakers a speech-start by `s` targets: the other
active speakers, filtered to `allowInterruption` (the filter inside
`initiateBargeIn`). -/
def remainingTargets (m : BargeInManager) (s : SpeakerId) : List SpeakerId :=
  ((getActiveSpeakers m).filter (fun x => x ≠ s)).filter
    (fun t => (m.speakerStates t).allowInterruption)

/-! ## Enhanced VAD
`src/unnamed/part_003`, class `EnhancedVadDetector`.  The per-frame pipeline
goes through `Math.sqrt` and `Math.log10`, so this component is modelled
over `ℝ`. -/

/-- `VadDetectorEnhancedOptions` after constructor defaulting (the initial
`speechThreshold`/`releaseThreshold` option values seed the mutable
thresholds). -/
structure VadOptions where
  sampleRate : ℕ
  frameDurationMs : ℕ
  speechThreshold0 : ℝ
  releaseThreshold0 : ℝ
  minSpeechMs : ℕ
  minSilenceMs : ℕ
  adaptiveThreshold : Bool
  noiseFloorAdaptationRate : ℝ
  confidenceEnabled : Bool
  spectralAnalysis : Bool

/-- The constructor defaults of `EnhancedVadDetector`. -/
noncomputable def defaultVadOptions : VadOptions :=
  { sampleRate := 48000, frameDurationMs := 20, speechThreshold0 := 0.015,
    releaseThreshold0 := 0.008, minSpeechMs := 120, minSilenceMs := 220,
    adaptiveThreshold := true, noiseFloorAdaptationRate := 0.01,
    confidenceEnabled := true, spectralAnalysis := true }

/-- `frameSamples = Math.floor((sampleRate / 1000) * frameDurationMs)`. -/
def frameSamples (o : VadOptions) : ℕ :=
  (Int.floor ((o.sampleRate : ℚ) / 1000 * (o.frameDurationMs : ℚ))).toNat

/-- `minSpeechFrames = Math.max(1, Math.floor(minSpeechMs / frameDurationMs))`. -/
def minSpeechFrames (o : VadOptions) : ℕ :=
  max 1 ((Int.floor ((o.minSpeechMs : ℚ) / (o.frameDurationMs : ℚ))).toNat)

/-- `minSilenceFrames = Math.max(1, Math.floor(minSilenceMs / frameDurationMs))`. -/
def minSilenceFrames (o : VadOptions) : ℕ :=
  max 1 ((Int.floor ((o.minSilenceMs : ℚ) / (o.frameDurationMs : ℚ))).toNat)

/-- The mutable detector state. -/
structure VadState where
  speechThreshold : ℝ
  releaseThreshold : ℝ
  speechFrameCount : ℕ
  silenceFrameCount : ℕ
  speaking : Bool
  noiseFloor : ℝ
  energyHistory : List ℝ
  confidenceHistory : List ℝ
  currentConfidence : ℝ
  peakEnergy : ℝ

/-- The constructor's initial state. -/
def initVad (o : VadOptions) : VadState :=
  { speechThreshold := o.speechThreshold0, releaseThreshold := o.releaseThreshold0,
    speechFrameCount := 0, silenceFrameCount := 0, speaking := false,
    noiseFloor := 0.001, energyHistory := [], confidenceHistory := [],
    currentConfidence := 0, peakEnergy := 0 }

/-- `maxHistoryFrames`. -/
def maxHistoryFrames : ℕ := 50

/-- Ring-buffer push: append, then `shift()` past `maxHistoryFrames`. -/
def pushHistory (h : List ℝ) (v : ℝ) : List ℝ :=
  let h2 := h ++ [v]
  if maxHistoryFrames < h2.length then h2.tail else h2

/-- The callbacks (`onSpeechStart`, `onSpeechEnd`, `onConfidenceUpdate`) a
frame fires, in order. -/
inductive VadEvent where
  | speechStart (confidence : ℝ)
  | speechEnd (confidence : ℝ)
  | confidenceUpdate (confidence : ℝ)

/-- Which of the three threshold regions a frame fell into (the branch taken
by the state machine in `processFrame`). -/
inductive FrameTag where
  | qualifying
  | release
  | intermediate
deriving DecidableEq, Repr

/-- `computeRms`: sum of squared normalized samples over the frame, with the
source's bounds `break` (dead in practice since callers stay in range), then
`sqrt(energy / frameSize)`. -/
noncomputable def frameEnergy (buf : List ℕ) (startSample frameSize : ℕ) : ℝ :=
  ((List.range frameSize).map (fun i =>
    if 2 * (startSample + i) + 1 < buf.length then
      ((decode16 (buf.getD (2 * (startSample + i)) 0)
          (buf.getD (2 * (startSample + i) + 1) 0) : ℝ) / 32768) ^ 2
    else 0)).sum

/-- `computeRms(buffer, startSample, frameSize)`. -/
noncomputable def computeRms (buf : List ℕ) (startSample frameSize : ℕ) : ℝ :=
  Real.sqrt (frameEnergy buf startSample frameSize / (frameSize : ℝ))

/-- `computeEnergyConfidence()`: SNR in dB against the noise floor over the
last ≤ 10 frames, mapped through `clamp01((snrDb − 5)/15)`. -/
noncomputable def computeEnergyConfidence (st : VadState) : ℝ :=
  if st.energyHistory = [] then 0
  else
    let recent := st.energyHistory.drop (st.energyHistory.length - 10)
    let avg := recent.sum / (recent.length : ℝ)
    let snr := avg / max st.noiseFloor 0.0001
    let snrDb := 20 * Real.logb 10 snr
    max 0 (min 1 ((snrDb - 5) / 15))

/-- `computeConsistencyConfidence()`: coefficient of variation over the last
≤ 10 frames, mapped through `clamp01(1 − (cv − 0.3)/0.7)`; 0.5 when fewer
than 5 frames. -/
noncomputable def computeConsistencyConfidence (st : VadState) : ℝ :=
  if st.energyHistory.length < 5 then 0.5
  else
    let recent := st.energyHistory.drop (st.energyHistory.length - 10)
    let mean := recent.sum / (recent.length : ℝ)
    let variance := (recent.map (fun v => (v - mean) ^ 2)).sum / (recent.length : ℝ)
    let stdDev := Real.sqrt variance
    let cv := if 0 < mean then stdDev / mean else 1
    max 0 (min 1 (1 - (cv - 0.3) / 0.7))

/-- `computeSpectralConfidence()`: the placeholder 0.7. -/
noncomputable def computeSpectralConfidence : ℝ := 0.7

/-- `updateNoiseFloor(rms)`: EMA update, only while not speaking and below
the speech threshold, clamped to `[0.0001, 0.1]`. -/
noncomputable def updateNoiseFloor (o : VadOptions) (st : VadState) (rms : ℝ) : VadState :=
  if st.speaking = false ∧ rms < st.speechThreshold then
    let ema := st.noiseFloor * (1 - o.noiseFloorAdaptationRate) +
      rms * o.noiseFloorAdaptationRate
    { st with noiseFloor := max 0.0001 (min 0.1 ema) }
  else st

/-- `updateConfidence(rms)`: weighted sub-confidences, EMA-smoothed into
`currentConfidence`, pushed to the confidence history.  (The `rms` argument
is unused in the source body too.) -/
noncomputable def updateConfidence (o : VadOptions) (st : VadState) : VadState :=
  let energyConf := computeEnergyConfidence st
  let consistencyConf := computeConsistencyConfidence st
  let spectralConf := if o.spectralAnalysis then computeSpectralConfidence else 0.5
  let raw := energyConf * 0.4 + consistencyConf * 0.4 + spectralConf * 0.2
  let newConf := st.currentConfidence * (1 - 0.15) + raw * 0.15
  { st with currentConfidence := newConf,
            confidenceHistory := pushHistory st.confidenceHistory newConf }

/-- The speech-detection state machine at the bottom of `processFrame`
(everything from the `rms >= effectiveThreshold` test down), returning the
branch taken as a `FrameTag`. -/
noncomputable def speechLogic (o : VadOptions) (st : VadState) (rms eff : ℝ) :
    VadState × FrameTag × List VadEvent :=
  if eff ≤ rms then
    let st4 := { st with speechFrameCount := st.speechFrameCount + 1, silenceFrameCount := 0 }
    if st4.speaking = false ∧ minSpeechFrames o ≤ st4.speechFrameCount then
      if o.confidenceEnabled = false ∨ (0.4 : ℝ) ≤ st4.currentConfidence then
        ({ st4 with speaking := true }, .qualifying,
         [.speechStart (if o.confidenceEnabled then st4.currentConfidence else 0.8)])
      else (st4, .qualifying, [])
    else (st4, .qualifying, [])
  else if rms ≤ st.releaseThreshold then
    if st.speaking = true then
      if minSilenceFrames o ≤ st.silenceFrameCount + 1 then
        ({ st with speaking := false, speechFrameCount := 0, silenceFrameCount := 0,
                   currentConfidence := st.currentConfidence * 0.5 }, .release,
         [.speechEnd (if o.confidenceEnabled then st.currentConfidence else 0.8)])
      else ({ st with silenceFrameCount := st.silenceFrameCount + 1 }, .release, [])
    else ({ st with speechFrameCount := 0 }, .release, [])
  else
    ({ st with speechFrameCount := st.speechFrameCount - 1 }, .intermediate, [])

/-- The first half of `processFrame` (everything before the state-machine
branch): push energy history, track peak energy, adapt the noise floor and
thresholds, update confidence. -/
noncomputable def preFrame (o : VadOptions) (st : VadState) (rms : ℝ) : VadState :=
  let st1 := { st with energyHistory := pushHistory st.energyHistory rms,
                       peakEnergy := max (st.peakEnergy * 0.999) rms }
  let st2 :=
    if o.adaptiveThreshold then
      let stn := updateNoiseFloor o st1 rms
      { stn with speechThreshold := stn.noiseFloor * 2.5,
                 releaseThreshold := stn.noiseFloor * (2.5 * 0.6) }
    else st1
  if o.confidenceEnabled then updateConfidence o st2 else st2

/-- `processFrame(buffer, offset, frameSize)`: the pre-pipeline (`preFrame`),
then the state machine against the (confidence-gated) effective threshold,
then the periodic confidence update. -/
noncomputable def processFrame (o : VadOptions) (st : VadState) (buf : List ℕ)
    (off frameSize : ℕ) : VadState × FrameTag × List VadEvent :=
  let rms := computeRms buf off frameSize
  let st3 := preFrame o st rms
  let eff := if o.confidenceEnabled
    then st3.speechThreshold * (1 - st3.currentConfidence * 0.3)
    else st3.speechThreshold
  let r := speechLogic o st3 rms eff
  (r.1, r.2.1,
   r.2.2 ++ (if o.confidenceEnabled then [.confidenceUpdate r.1.currentConfidence] else []))

/-- `processAudio(buffer)`: drop empty input; drop (with a warning) any chunk
whose byte length is not a whole number of 16-bit samples; otherwise cut the
samples into frames of `frameSamples` (last one partial) and process each.
(A zero `frameSamples` would loop forever in the source; the offset list is
empty for it here.) -/
noncomputable def processAudio (o : VadOptions) (st : VadState) (buf : List ℕ) :
    VadState × List VadEvent :=
  if buf.length = 0 then (st, [])
  else if ¬ (buf.length % 2 = 0) then (st, [])
  else
    let sampleCount := buf.length / 2
    let fs := frameSamples o
    let offsets := (List.range (if fs = 0 then 0 else (sampleCount + fs - 1) / fs)).map (· * fs)
    offsets.foldl (fun acc off =>
      let r := processFrame o acc.1 buf off (min fs (sampleCount - off))
      (r.1, acc.2 ++ r.2.2)) (st, [])

/-- A frame presented to `processFrame`: buffer, sample offset, frame size. -/
def FrameSpec : Type := List ℕ × ℕ × ℕ

/-- Fold `processFrame` over a frame list (final state). -/
noncomputable def vadStepsF (o : VadOptions) : VadState → List FrameSpec → VadState
  | st, [] => st
  | st, f :: fs => vadStepsF o (processFrame o st f.1 f.2.1 f.2.2).1 fs

/-- The branch tags of a frame list. -/
noncomputable def vadTagsF (o : VadOptions) : VadState → List FrameSpec → List FrameTag
  | _, [] => []
  | st, f :: fs =>
    (processFrame o st f.1 f.2.1 f.2.2).2.1 ::
      vadTagsF o (processFrame o st f.1 f.2.1 f.2.2).1 fs

/-- Fold `processAudio` over a chunk sequence (final state). -/
noncomputable def vadRunBufs (o : VadOptions) (st : VadState) (bufs : List (List ℕ)) : VadState :=
  bufs.foldl (fun acc buf => (processAudio o acc buf).1) st

/-- The VAD invariant from the spec data model: noise floor in
`[0.0001, 0.1]`, `speech_threshold > release_threshold`, confidence in
`[0, 1]`. -/
def VadInv (st : VadState) : Prop :=
  0.0001 ≤ st.noiseFloor ∧ st.noiseFloor ≤ 0.1 ∧
  st.releaseThreshold < st.speechThreshold ∧
  0 ≤ st.currentConfidence ∧ st.currentConfidence ≤ 1

/-- Count of qualifying tags. -/
def countQualifying (tags : List FrameTag) : ℕ :=
  (tags.filter (fun t => t = .qualifying)).length

/-- A detector configuration that makes frame-level accounting exact: one
sample per frame (1 kHz, 1 ms frames), fixed thresholds 0.015/0.008
(adaptation off), confidence gating off, three qualifying frames required
(`minSpeechMs = 3`). -/
noncomputable def o8 : VadOptions :=
  { sampleRate := 1000, frameDurationMs := 1, speechThreshold0 := 0.015,
    releaseThreshold0 := 0.008, minSpeechMs := 3, minSilenceMs := 220,
    adaptiveThreshold := false, noiseFloorAdaptationRate := 0.01,
    confidenceEnabled := false, spectralAnalysis := true }

/-- Five single-sample frames with samples 600, 600, 300, 600, 600: RMS
0.0183, 0.0183, 0.00916, 0.0183, 0.0183 — qualifying, qualifying,
intermediate, qualifying, qualifying under `o8`. -/
def frames8 : List FrameSpec :=
  [([88, 2], 0, 1), ([88, 2], 0, 1), ([44, 1], 0, 1), ([88, 2], 0, 1), ([88, 2], 0, 1)]

/-! ## Enhanced command router
`src/unnamed/part_002`, class `EnhancedCommandRouter`.

Strings are `List Char`.  The JS regexes are compiled by hand into scanning
functions; every pattern involved is deterministic (each greedy character
class is disjoint from what can follow it, and each alternation is tried in
source order), so leftmost-match scanning loses no backtracking behaviour.
`toLowerCase` is modelled on the ASCII fragment (all keywords and pattern
literals are ASCII).  The mutable `this.context` is passed explicitly; its
`timestamp` and `sessionContext` fields (wall-clock bookkeeping that never
influences a decision) are dropped. -/

/-- The JS regex `\s` (and `String.trim`) whitespace set. -/
def jsWs (c : Char) : Bool :=
  let n := c.toNat
  decide (n = 9) || decide (n = 10) || decide (n = 11) || decide (n = 12) ||
  decide (n = 13) || decide (n = 32) || decide (n = 160) || decide (n = 0x1680) ||
  (decide (0x2000 ≤ n) && decide (n ≤ 0x200a)) || decide (n = 0x2028) ||
  decide (n = 0x2029) || decide (n = 0x202f) || decide (n = 0x205f) ||
  decide (n = 0x3000) || decide (n = 0xfeff)

/-- JS `String.prototype.trim`. -/
def jsTrim (s : List Char) : List Char :=
  ((s.dropWhile jsWs).reverse.dropWhile jsWs).reverse

/-- JS `toLowerCase`, ASCII fragment. -/
def jsToLower (c : Char) : Char :=
  if 65 ≤ c.toNat ∧ c.toNat ≤ 90 then Char.ofNat (c.toNat + 32) else c

/-- JS regex word character (`\w` = `[A-Za-z0-9_]`), used by `\b`. -/
def wordChar (c : Char) : Bool :=
  (decide ('a' ≤ c) && decide (c ≤ 'z')) || (decide ('A' ≤ c) && decide (c ≤ 'Z')) ||
  (decide ('0' ≤ c) && decide (c ≤ '9')) || c == '_'

/-- Is the character at index `i` a word character (out of range: no)? -/
def isWordAt (s : List Char) (i : ℕ) : Bool := wordChar (s.getD i ' ')

/-- JS regex `\b` at position `i` of `s`. -/
def boundaryAt (s : List Char) (i : ℕ) : Bool :=
  (if i = 0 then false else isWordAt s (i - 1)) != isWordAt s i

/-- The separator class `[:\-,\s]` (= `[\s,:-]`) of the address patterns. -/
def sepChar (c : Char) : Bool := c == ':' || c == '-' || c == ',' || jsWs c

/-- End of the maximal run of `p`-characters starting at `i`. -/
def runEnd (p : Char → Bool) (s : List Char) (i : ℕ) : ℕ :=
  i + ((s.drop i).takeWhile p).length

/-- Source `Number.parseInt` on a nonempty decimal digit string. -/
def parseDigits (ds : List Char) : ℕ :=
  ds.foldl (fun n c => n * 10 + (c.toNat - 48)) 0

/-- Source `CommandAction` from part_002. -/
inductive CommandAction where
  | address
  | thinking
  | broadcast
  | bargeInControl
  | duckingControl
deriving DecidableEq, Repr

/-- Source `CommandContext` (decision-relevant fields). -/
structure CommandContextM where
  lastAddressed : Option (List SpeakerId)
  lastAction : Option CommandAction
deriving DecidableEq, Repr

/-- The freshly constructed context of the router (claim: empty context). -/
def emptyCommandContext : CommandContextM := ⟨none, none⟩

/-- Source `CommandRouteResult`. -/
structure CommandRouteResult where
  raw : List Char
  normalized : List Char
  targets : List SpeakerId
  remainder : List Char
  action : CommandAction
  durationMs : Option ℕ
  confidence : ℚ
  matchedKeywords : Option (List (List Char))
  fuzzyMatched : Option Bool
  context : CommandContextM

/-- Source `addressKeywords`. -/
def addressKeywords : List (List Char) :=
  ["claude".toList, "guest".toList, "both".toList, "everyone".toList, "all".toList,
   "showrunner".toList, "autopilot".toList, "basil".toList]

/-- Source `thinkingKeywords`. -/
def thinkingKeywords : List (List Char) :=
  ["thinking".toList, "think".toList, "pause".toList, "wait".toList, "hold".toList,
   "moment".toList, "beat".toList, "countdown".toList, "processing".toList,
   "consider".toList, "ponder".toList, "reflect".toList]

/-- Source `bargeInKeywords`. -/
def bargeInKeywords : List (List Char) :=
  ["interrupt".toList, "stop".toList, "halt".toList, "quiet".toList, "silence".toList,
   "mute".toList, "hold up".toList, "wait a minute".toList]

/-- Source `duckingKeywords`. -/
def duckingKeywords : List (List Char) :=
  ["lower".toList, "reduce".toList, "quieter".toList, "softer".toList,
   "volume down".toList, "turn down".toList]

/-- Source `fuzzyThreshold` (Levenshtein distance bound). -/
def fuzzyThreshold : ℕ := 2

/-- JS `String.prototype.includes` (substring test). -/
def strIncludes : List Char → List Char → Bool
  | [], sub => sub.isEmpty
  | c :: rest, sub => sub.isPrefixOf (c :: rest) || strIncludes rest sub

/-- A deterministic regex fragment: literal, ordered alternation of literals,
`\s+`, `\s*`, `(\d+)?`. -/
inductive Tok where
  | lit : List Char → Tok
  | alt : List (List Char) → Tok
  | ws1 : Tok
  | ws0 : Tok
  | optDigits : Tok

/-- Match a token sequence at position `i`; returns the end position.
Greedy and without backtracking, which is exact for the patterns below
(each greedy class is disjoint from what follows). -/
def matchToksFrom (s : List Char) : List Tok → ℕ → Option ℕ
  | [], i => some i
  | Tok.lit w :: rest, i =>
      if w.isPrefixOf (s.drop i) then matchToksFrom s rest (i + w.length) else none
  | Tok.alt ws :: rest, i =>
      match ws.find? (fun w => w.isPrefixOf (s.drop i)) with
      | some w => matchToksFrom s rest (i + w.length)
      | none => none
  | Tok.ws1 :: rest, i =>
      let j := runEnd jsWs s i
      if i < j then matchToksFrom s rest j else none
  | Tok.ws0 :: rest, i => matchToksFrom s rest (runEnd jsWs s i)
  | Tok.optDigits :: rest, i => matchToksFrom s rest (runEnd Char.isDigit s i)

/-- Source `RegExp.prototype.test`: does the token sequence match anywhere, with
optional `\b` required before and after the match? -/
def testPat (s : List Char) (toks : List Tok) (bStart bEnd : Bool) : Bool :=
  (List.range (s.length + 1)).any fun i =>
    (!bStart || boundaryAt s i) &&
    (match matchToksFrom s toks i with
     | some j => !bEnd || boundaryAt s j
     | none => false)

/-- Words joined by `\s+`. -/
def wordSeq : List (List Char) → List Tok
  | [] => []
  | [w] => [Tok.lit w]
  | w :: rest => Tok.lit w :: Tok.ws1 :: wordSeq rest

/-- The `bargeInPatterns` table of `detectBargeInControl`: first matching
pattern's confidence. -/
def bargeInPatternHit (s : List Char) : Option ℚ :=
  if testPat s [Tok.alt ["stop".toList, "halt".toList, "interrupt".toList,
      "quiet".toList, "silence".toList]] true true then some (8/10)
  else if testPat s (wordSeq ["hold".toList, "up".toList]) true true ||
      testPat s (wordSeq ["wait".toList, "a".toList, "minute".toList]) true true then
    some (75/100)
  else if testPat s [Tok.lit ("mute".toList), Tok.ws1,
      Tok.alt ["everyone".toList, "all".toList]] true true then some (85/100)
  else none

/-- The `duckingPatterns` table of `detectDuckingControl`. -/
def duckingPatternHit (s : List Char) : Option ℚ :=
  if testPat s [Tok.alt ["lower".toList, "reduce".toList, "quieter".toList,
      "softer".toList], Tok.ws1, Tok.alt ["volume".toList, "sound".toList]] true true then
    some (8/10)
  else if testPat s (wordSeq ["turn".toList, "down".toList]) true true then some (75/100)
  else if testPat s (wordSeq ["volume".toList, "down".toList]) true true then some (8/10)
  else none

/-- Source `mapKeywordToTargets`. -/
def mapKeywordToTargets (kw : List Char) : List SpeakerId :=
  if kw = "claude".toList then [SpeakerId.claude]
  else if kw = "guest".toList then [SpeakerId.guest]
  else if kw = "basil".toList then [SpeakerId.you]
  else if kw = "both".toList ∨ kw = "everyone".toList ∨ kw = "all".toList then
    [SpeakerId.claude, SpeakerId.guest]
  else if kw = "showrunner".toList ∨ kw = "autopilot".toList then [SpeakerId.claude]
  else []

/-- Source `detectBargeInControl`. -/
def detectBargeInControl (s : List Char) (ctx : CommandContextM) :
    Option CommandRouteResult :=
  match bargeInPatternHit s with
  | some conf =>
      some { raw := s, normalized := s, targets := [SpeakerId.claude, SpeakerId.guest],
             remainder := [], action := CommandAction.bargeInControl, durationMs := none,
             confidence := conf, matchedKeywords := none, fuzzyMatched := none,
             context := ctx }
  | none => none

/-- Source `detectDuckingControl`. -/
def detectDuckingControl (s : List Char) (ctx : CommandContextM) :
    Option CommandRouteResult :=
  match duckingPatternHit s with
  | some conf =>
      some { raw := s, normalized := s, targets := [SpeakerId.claude, SpeakerId.guest],
             remainder := [], action := CommandAction.duckingControl, durationMs := none,
             confidence := conf, matchedKeywords := none, fuzzyMatched := none,
             context := ctx }
  | none => none

/-- The result of a successful `extractAddress`. -/
structure AddressResult where
  targets : List SpeakerId
  remainder : List Char
  confidence : ℚ
  matchedKeywords : Option (List (List Char))
  fuzzyMatched : Option Bool

/-- First address keyword that is a prefix of `s` at `i` (regex alternation
order = keyword order; the keywords are mutually prefix-free). -/
def matchKeywordAt (s : List Char) (i : ℕ) : Option (List Char) :=
  addressKeywords.find? (fun kw => kw.isPrefixOf (s.drop i))

/-- Source `@?(keyword)[:\-,\s]+` at position `i`: keyword and end of match. -/
def matchDirectFrom (s : List Char) (i : ℕ) : Option (List Char × ℕ) :=
  let i1 := if (s.drop i).headD ' ' == '@' then i + 1 else i
  match matchKeywordAt s i1 with
  | some kw =>
      let j := runEnd sepChar s (i1 + kw.length)
      if i1 + kw.length < j then some (kw, j) else none
  | none => none

/-- The anchored `directPattern` `^(?:hey\s+)?@?(keyword)[:\-,\s]+` (the
optional hey-group backtracks to empty when the rest fails after it). -/
def matchDirect (s : List Char) : Option (List Char × ℕ) :=
  let heyBranch :=
    if ("hey".toList).isPrefixOf s then
      let j := runEnd jsWs s 3
      if 3 < j then matchDirectFrom s j else none
    else none
  match heyBranch with
  | some r => some r
  | none => matchDirectFrom s 0

/-- The `startsWith` keyword branch of `extractAddress`. -/
def startsWithKeyword (s : List Char) : Option AddressResult :=
  addressKeywords.findSome? fun kw =>
    if (kw ++ [',']).isPrefixOf s ∨ (kw ++ [' ']).isPrefixOf s then
      some { targets := mapKeywordToTargets kw,
             remainder := (s.drop kw.length).dropWhile (fun c => c == ',' || jsWs c),
             confidence := 7/10, matchedKeywords := some [kw], fuzzyMatched := some false }
    else none

/-- Leftmost match of the inline pattern `\b(keyword)[\s,:-]+`: start and end. -/
def inlineFind (s kw : List Char) : Option (ℕ × ℕ) :=
  (List.range (s.length + 1)).findSome? fun i =>
    if boundaryAt s i && kw.isPrefixOf (s.drop i) then
      let j := runEnd sepChar s (i + kw.length)
      if i + kw.length < j then some (i, j) else none
    else none

/-- The inline-address branch of `extractAddress` (accepted when the leftmost
match starts before index 20). -/
def inlineAddress (s : List Char) : Option AddressResult :=
  addressKeywords.findSome? fun kw =>
    match inlineFind s kw with
    | some (i, j) =>
        if i < 20 then
          some { targets := mapKeywordToTargets kw, remainder := jsTrim (s.drop j),
                 confidence := 55/100, matchedKeywords := some [kw],
                 fuzzyMatched := some false }
        else none
    | none => none

theorem dropWhile_len_le (p : Char → Bool) (l : List Char) :
    (l.dropWhile p).length ≤ l.length := by
  induction l with
  | nil => exact le_refl _
  | cons c rest ih =>
    rw [List.dropWhile_cons]
    split
    · exact le_trans ih (Nat.le_succ _)
    · exact le_refl _

/-- JS `split(/\s+/)` worker. -/
def jsSplitWsAux : List Char → List Char → List (List Char)
  | [], acc => [acc.reverse]
  | c :: rest, acc =>
      if jsWs c then acc.reverse :: jsSplitWsAux (rest.dropWhile jsWs) []
      else jsSplitWsAux rest (c :: acc)
termination_by s _ => s.length
decreasing_by
  · simp only [List.length_cons]
    exact Nat.lt_succ_of_le (dropWhile_len_le jsWs rest)
  · simp only [List.length_cons]
    exact Nat.lt_succ_self _

/-- JS `normalized.split(/\s+/)`. -/
def jsSplitWs (s : List Char) : List (List Char) := jsSplitWsAux s []

/-- One row-update of the `levenshteinDistance` DP matrix: `prev` holds
`matrix[i-1][j-1 ..]`, `left` holds `matrix[i][j-1]`. -/
def levRowAux (bc : Char) : List Char → List ℕ → ℕ → List ℕ
  | [], _, _ => []
  | ac :: as, prev, left =>
      match prev with
      | [] => []
      | diag :: prest =>
          let up := prest.headD 0
          let v := if bc == ac then diag
            else min (diag + 1) (min (left + 1) (up + 1))
          v :: levRowAux bc as prest v

/-- All DP rows of `levenshteinDistance`; returns the final row. -/
def levRows (a : List Char) : List Char → List ℕ → ℕ → List ℕ
  | [], prev, _ => prev
  | bc :: bs, prev, i => levRows a bs (i :: levRowAux bc a prev i) (i + 1)

/-- Source `levenshteinDistance` (row-by-row DP as in the source). -/
def levenshteinDistance (a b : List Char) : ℕ :=
  if a.length = 0 then b.length
  else if b.length = 0 then a.length
  else (levRows a b (List.range (a.length + 1)) 1).getLastD 0

/-- Inner keyword loop of `fuzzyMatchAddress` for one word: keyword and the
pre-reduction confidence `1 - d/len`. -/
def fuzzyTryWord (word : List Char) : Option (List Char × ℚ) :=
  addressKeywords.findSome? fun kw =>
    let d := levenshteinDistance word kw
    if d ≤ fuzzyThreshold ∧ 0 < d then
      let c : ℚ := 1 - (d : ℚ) / (kw.length : ℚ)
      if 6/10 ≤ c then some (kw, c) else none
    else none

/-- Source `fuzzyMatchAddress`. -/
def fuzzyMatchAddress (s : List Char) : Option AddressResult :=
  let words := jsSplitWs s
  (List.range (min 3 words.length)).findSome? fun i =>
    match fuzzyTryWord (words.getD i []) with
    | some p =>
        some { targets := mapKeywordToTargets p.1,
               remainder := List.intercalate [' '] (words.drop (i + 1)),
               confidence := p.2 * (7/10), matchedKeywords := some [p.1],
               fuzzyMatched := some true }
    | none => none

/-- Source `extractAddress`: direct, starts-with, inline, then fuzzy. -/
def extractAddress (s : List Char) : Option AddressResult :=
  match matchDirect s with
  | some p =>
      some { targets := mapKeywordToTargets p.1, remainder := jsTrim (s.drop p.2),
             confidence := 9/10, matchedKeywords := some [p.1],
             fuzzyMatched := some false }
  | none =>
      match startsWithKeyword s with
      | some r => some r
      | none =>
          match inlineAddress s with
          | some r => some r
          | none => fuzzyMatchAddress s

/-- The `continuationPatterns` tests of `resolveContextualTargets`. -/
def continuationTest (s : List Char) : Bool :=
  (match matchToksFrom s [Tok.alt ["also".toList, "too".toList, "as well".toList]] 0 with
   | some _ => true
   | none => false) ||
  (match matchToksFrom s [Tok.lit ("and".toList), Tok.ws1,
      Tok.alt ["also".toList, "too".toList, "as well".toList]] 0 with
   | some _ => true
   | none => false) ||
  ("continue".toList).isPrefixOf s ||
  (match matchToksFrom s (wordSeq ["same".toList, "to".toList, "you".toList]) 0 with
   | some _ => true
   | none => false) ||
  (match matchToksFrom s (wordSeq ["you".toList, "too".toList]) 0 with
   | some _ => true
   | none => false)

/-- The `\b(same|ditto)\b` test. -/
def sameDittoTest (s : List Char) : Bool :=
  testPat s [Tok.alt ["same".toList, "ditto".toList]] true true

/-- Source `resolveContextualTargets`. -/
def resolveContextualTargets (s : List Char) (explicitTargets : List SpeakerId)
    (ctx : CommandContextM) : List SpeakerId :=
  if explicitTargets.length > 0 then explicitTargets
  else
    match ctx.lastAddressed with
    | some last => if continuationTest s || sameDittoTest s then last else []
    | none => []

/-- The `thinkingPatterns` tests of `detectAction`. -/
def thinkingPatternTest (t : List Char) : Bool :=
  testPat t (wordSeq ["thinking".toList, "mode".toList]) false false ||
  testPat t [Tok.lit ("take".toList), Tok.ws1, Tok.lit ("a".toList), Tok.ws1,
    Tok.alt ["beat".toList, "moment".toList, "second".toList]] false false ||
  testPat t (wordSeq ["need".toList, "to".toList, "think".toList]) false false ||
  testPat t [Tok.lit ("give".toList), Tok.ws1,
    Tok.alt ["me".toList, "us".toList, "them".toList], Tok.ws1, Tok.optDigits, Tok.ws0,
    Tok.alt ["second".toList, "minute".toList, "time".toList]] false false ||
  testPat t [Tok.lit ("countdown".toList)] false false ||
  testPat t [Tok.lit ("time".toList), Tok.ws1, Tok.lit ("to".toList), Tok.ws1,
    Tok.alt ["think".toList, "process".toList, "consider".toList]] false false ||
  testPat t [Tok.lit ("let".toList), Tok.ws1,
    Tok.alt ["me".toList, "us".toList, "them".toList], Tok.ws1,
    Tok.alt ["think".toList, "process".toList, "ponder".toList]] false false ||
  testPat t [Tok.lit ("pause".toList), Tok.ws1, Tok.alt ["for".toList, "to".toList]] false false

/-- Source `detectAction` (its `fullText` parameter is unused in the source too). -/
def detectAction (remainder : List Char) (targets : List SpeakerId)
    (fullText : List Char) : CommandAction :=
  let _ := fullText
  let trimmed := jsTrim remainder
  if trimmed = [] then
    (if targets.length > 0 then CommandAction.address else CommandAction.broadcast)
  else if bargeInKeywords.any (fun kw => strIncludes trimmed kw) then
    CommandAction.bargeInControl
  else if duckingKeywords.any (fun kw => strIncludes trimmed kw) then
    CommandAction.duckingControl
  else if thinkingKeywords.any (fun kw => strIncludes trimmed kw) ||
      thinkingPatternTest trimmed then
    CommandAction.thinking
  else if targets.length > 0 then CommandAction.address
  else CommandAction.broadcast

/-- The unit alternation `(seconds?|secs?|s\b)` at position `j`. -/
def durUnitSec (s : List Char) (j : ℕ) : Bool :=
  ("second".toList).isPrefixOf (s.drop j) || ("sec".toList).isPrefixOf (s.drop j) ||
  (s.getD j ' ' == 's' && boundaryAt s (j + 1))

/-- The unit alternation `(minutes?|mins?|m\b)` at position `j`. -/
def durUnitMin (s : List Char) (j : ℕ) : Bool :=
  ("minute".toList).isPrefixOf (s.drop j) || ("min".toList).isPrefixOf (s.drop j) ||
  (s.getD j ' ' == 'm' && boundaryAt s (j + 1))

/-- Source `(\d+)\s*(unit)` at position `i`: the parsed digits. -/
def durMatchAt (unit : List Char → ℕ → Bool) (s : List Char) (i : ℕ) : Option ℕ :=
  let ds := (s.drop i).takeWhile Char.isDigit
  if ds = [] then none
  else if unit s (runEnd jsWs s (i + ds.length)) then some (parseDigits ds)
  else none

/-- Leftmost `(\d+)\s*(seconds?|secs?|s\b)` match. -/
def findSecondsMatch (s : List Char) : Option ℕ :=
  (List.range s.length).findSome? (durMatchAt durUnitSec s)

/-- Leftmost `(\d+)\s*(minutes?|mins?|m\b)` match. -/
def findMinutesMatch (s : List Char) : Option ℕ :=
  (List.range s.length).findSome? (durMatchAt durUnitMin s)

/-- Source `extractDuration`: explicit seconds, explicit minutes, implicit
quick/long, default 30 s. -/
def extractDuration (remainder : List Char) : ℕ :=
  match findSecondsMatch remainder with
  | some n => n * 1000
  | none =>
    match findMinutesMatch remainder with
    | some n => n * 60000
    | none =>
      if testPat remainder [Tok.alt ["quick".toList, "brief".toList, "short".toList],
          Tok.ws1, Tok.alt ["moment".toList, "pause".toList, "beat".toList]] true false then
        10000
      else if testPat remainder [Tok.lit ("long".toList), Tok.ws1,
          Tok.alt ["moment".toList, "pause".toList, "beat".toList]] true false then
        60000
      else 30000

/-- Tail of the main branch of `route`: the empty-address guard, the default
thinking target, and the assembled `CommandRouteResult`. -/
def routeFinish (raw normalized remainder : List Char) (addressed : Option AddressResult)
    (action : CommandAction) (finalTargets : List SpeakerId) (ctx : CommandContextM) :
    Option CommandRouteResult :=
  if finalTargets.length = 0 ∧ action = CommandAction.address then none
  else
    let resolvedTargets :=
      if action = CommandAction.thinking ∧ finalTargets.length = 0 then [SpeakerId.claude]
      else finalTargets
    some { raw := raw, normalized := normalized, targets := resolvedTargets,
           remainder := remainder, action := action,
           durationMs :=
             if action = CommandAction.thinking then some (extractDuration remainder)
             else none,
           confidence := match addressed with
             | some a => a.confidence
             | none => if resolvedTargets.length > 0 then 5/10 else 3/10,
           matchedKeywords := match addressed with
             | some a => a.matchedKeywords
             | none => none,
           fuzzyMatched := match addressed with
             | some a => a.fuzzyMatched
             | none => none,
           context := ctx }

/-- The main branch of `route` (after the barge-in and ducking shortcuts). -/
def routeMain (raw normalized : List Char) (ctx : CommandContextM) :
    Option CommandRouteResult :=
  let addressed := extractAddress normalized
  let targets := match addressed with
    | some a => a.targets
    | none => []
  let remainder := match addressed with
    | some a => a.remainder
    | none => normalized
  let action := detectAction remainder targets normalized
  let contextTargets := resolveContextualTargets normalized targets ctx
  let finalTargets := if contextTargets.length > 0 then contextTargets else targets
  routeFinish raw normalized remainder addressed action finalTargets ctx

/-- Source `route` (note the barge-in and ducking shortcuts store `normalized` in
the `raw` field, as the source does). -/
def route (text : List Char) (ctx : CommandContextM) : Option CommandRouteResult :=
  let raw := jsTrim text
  if raw = [] then none
  else
    let normalized := raw.map jsToLower
    match detectBargeInControl normalized ctx with
    | some r => some r
    | none =>
      match detectDuckingControl normalized ctx with
      | some r => some r
      | none => routeMain raw normalized ctx

/-- The `route` decision on `"claude, hello"` with the empty context. -/
def c4rW : CommandRouteResult :=
  { raw := "claude, hello".toList, normalized := "claude, hello".toList,
    targets := [SpeakerId.claude], remainder := "hello".toList,
    action := CommandAction.address, durationMs := none, confidence := 9/10,
    matchedKeywords := some ["claude".toList], fuzzyMatched := some false,
    context := emptyCommandContext }

end Basil

namespace Basil

/-! ## Supporting lemmas -/

theorem take_append_take {α : Type} (l t : List α) (n : ℕ) :
    (l ++ t.take n).take n = (l ++ t).take n := by
  simp only [List.take_append_eq_append_take, List.take_take]
  have h : min (n - l.length) n = n - l.length := Nat.min_eq_left (Nat.sub_le n l.length)
  rw [h]

theorem addCaption_foldl (cs : List CaptionPayload) (st : OrchestratorPresentation)
    (h : st.captions.length ≤ MAX_CAPTION_HISTORY) :
    (cs.foldl addCaption st).captions =
      (cs.reverse ++ st.captions).take MAX_CAPTION_HISTORY := by
  induction cs generalizing st with
  | nil =>
    simp [List.take_of_length_le h]
  | cons c cs ih =>
    rw [List.foldl_cons, ih (addCaption st c) (by simp [addCaption])]
    simp only [addCaption, List.reverse_cons, List.append_assoc, List.singleton_append]
    exact take_append_take _ _ _

theorem addCaption_foldl_frame (cs : List CaptionPayload) (st : OrchestratorPresentation) :
    (cs.foldl addCaption st).orbStates = st.orbStates ∧
    (cs.foldl addCaption st).autopilot = st.autopilot ∧
    (cs.foldl addCaption st).sharedScreen = st.sharedScreen := by
  induction cs generalizing st with
  | nil => exact ⟨rfl, rfl, rfl⟩
  | cons c cs ih => simpa [addCaption] using ih (addCaption st c)

/-! ## C9: caption history bound and snapshot contents -/

/-- C9: over any sequence of finalized transcripts, the stored caption history
is exactly the newest-first list of the most recent `MAX_CAPTION_HISTORY = 20`
captions (hence never exceeds 20), and a snapshot exposes exactly the most
recent `min 6 stored` captions together with the current orb states,
autopilot flag, and shared-screen value. -/
theorem c9_captions_snapshot (orbs : SpeakerId → OrbState) (autop : Bool)
    (screen : SharedScreenState) (cs : List CaptionPayload) :
    (cs.foldl addCaption ⟨orbs, [], autop, screen⟩).captions =
        cs.reverse.take MAX_CAPTION_HISTORY ∧
    (cs.foldl addCaption ⟨orbs, [], autop, screen⟩).captions.length ≤
        MAX_CAPTION_HISTORY ∧
    (snapshot (cs.foldl addCaption ⟨orbs, [], autop, screen⟩)).captions =
        (cs.foldl addCaption ⟨orbs, [], autop, screen⟩).captions.take
          CAPTION_SNAPSHOT_LIMIT ∧
    (snapshot (cs.foldl addCaption ⟨orbs, [], autop, screen⟩)).captions.length =
        min CAPTION_SNAPSHOT_LIMIT
          (cs.foldl addCaption ⟨orbs, [], autop, screen⟩).captions.length ∧
    (snapshot (cs.foldl addCaption ⟨orbs, [], autop, screen⟩)).orbStates = orbs ∧
    (snapshot (cs.foldl addCaption ⟨orbs, [], autop, screen⟩)).autopilot = autop ∧
    (snapshot (cs.foldl addCaption ⟨orbs, [], autop, screen⟩)).sharedScreen = screen := by
  have hcap := addCaption_foldl cs ⟨orbs, [], autop, screen⟩ (by simp)
  have hframe := addCaption_foldl_frame cs ⟨orbs, [], autop, screen⟩
  simp only [List.append_nil] at hcap
  refine ⟨hcap, ?_, rfl, ?_, hframe.1, hframe.2.1, hframe.2.2⟩
  · rw [hcap]; simp
  · simp [snapshot, List.length_take]

/-! ## C5: odd trailing byte -/

/-- C5: on a 3-byte buffer with ducking engaged (custom −20 dB profile,
immediate start), `AudioProcessor.processBuffer` raises `ERR_OUT_OF_RANGE`
(the fractional loop bound `buffer.length / 2` sends the final
`readInt16LE` past the end) instead of copying the trailing byte through;
the static-gain `ProductionOrchestrator.applyGain` path does copy the
trailing byte through unchanged while scaling the complete sample; and
`processBuffer` only passes an odd buffer through on the
gain-1.0/ramp-inactive fast path. -/
theorem c5_odd_byte_behavior :
    (processBuffer (startDucking cfgCustomMinus20 (initRamp cfgCustomMinus20) true)
        [16, 39, 7]).2 = .error "ERR_OUT_OF_RANGE" ∧
    applyGain [16, 39, 7] (1 / 10) = [232, 3, 7] ∧
    (processBuffer (initRamp cfgCustomMinus20) [16, 39, 7]).2 = .ok [16, 39, 7] := by
  refine ⟨?_, ?_, ?_⟩
  · norm_num [processBuffer, startDucking, initRamp, cfgCustomMinus20, dbToGainTwentyK,
      duckTargetGain, readSamples, processSamples, sampleStep, decode16, jsRound,
      clamp16, computeRampGain, writeSamples, encode16]
  · norm_num [applyGain, decode16, jsRound, clamp16, encode16]
    omega
  · norm_num [processBuffer, initRamp, cfgCustomMinus20]

/-! ## C6: gain-ramp invariants -/

theorem curveApply_mem_unit (c : DuckingCurve) {p : ℚ} (h0 : 0 ≤ p) (h1 : p ≤ 1) :
    0 ≤ curveApply c p ∧ curveApply c p ≤ 1 := by
  cases c <;> simp only [curveApply] <;> constructor <;> nlinarith

theorem computeRampGain_mem_unit {st : GainRampState} (h : RampInv st)
    (hact : st.active = true) :
    0 ≤ computeRampGain st ∧ computeRampGain st ≤ 1 := by
  obtain ⟨_, _, hs0, hs1, ht0, ht1, helapsed⟩ := h
  have hp0 : (0 : ℚ) ≤ (st.elapsedSamples : ℚ) / (st.rampSamples : ℚ) :=
    div_nonneg (by positivity) (by positivity)
  have hp1 : (st.elapsedSamples : ℚ) / (st.rampSamples : ℚ) ≤ 1 := by
    rcases Nat.eq_zero_or_pos st.rampSamples with hR | hR
    · simp [hR]
    · rw [div_le_one (by exact_mod_cast hR)]
      exact_mod_cast helapsed hact
  have hc := curveApply_mem_unit st.curve hp0 hp1
  unfold computeRampGain
  constructor <;> nlinarith [hc.1, hc.2]

theorem rampInv_sampleStep {st : GainRampState} (h : RampInv st) (s : ℤ) :
    RampInv (sampleStep st s).1 := by
  obtain ⟨hc0, hc1, hs0, hs1, ht0, ht1, helapsed⟩ := h
  by_cases hact : st.active = true
  · have hg := computeRampGain_mem_unit ⟨hc0, hc1, hs0, hs1, ht0, ht1, helapsed⟩ hact
    by_cases hdone : st.elapsedSamples + 1 ≥ st.rampSamples
    · simp only [sampleStep, hact, if_pos, if_true, hdone]
      exact ⟨ht0, ht1, hs0, hs1, ht0, ht1, by simp⟩
    · simp only [sampleStep, hact, if_pos, if_true, if_neg hdone]
      exact ⟨hg.1, hg.2, hs0, hs1, ht0, ht1,
        fun _ => le_of_lt (Nat.lt_of_not_le hdone)⟩
  · simp only [sampleStep, if_neg hact]
    exact ⟨hc0, hc1, hs0, hs1, ht0, ht1, helapsed⟩

theorem rampInv_processSamples {st : GainRampState} (h : RampInv st)
    (ss : List ℤ) : RampInv (processSamples st ss).1 := by
  induction ss generalizing st with
  | nil => exact h
  | cons s rest ih => exact ih (rampInv_sampleStep h s)

theorem rampInv_applyOp {cfg : AudioProcessorCfg}
    (hg0 : 0 ≤ cfg.ducking.reductionGain) (hg1 : cfg.ducking.reductionGain ≤ 1)
    {st : GainRampState} (h : RampInv st) (op : DuckOp) :
    RampInv (applyDuckOp cfg st op) := by
  obtain ⟨hc0, hc1, hs0, hs1, ht0, ht1, helapsed⟩ := h
  cases op with
  | start imm =>
    cases imm <;>
      simp only [applyDuckOp, startDucking, duckTargetGain, if_pos, if_neg,
        Bool.false_eq_true, ite_true, ite_false] <;>
      exact ⟨by assumption, by assumption, by assumption, by assumption,
        by assumption, by assumption, by simp⟩
  | stop imm =>
    cases imm <;>
      simp only [applyDuckOp, stopDucking, if_pos, if_neg,
        Bool.false_eq_true, ite_true, ite_false] <;>
      refine ⟨?_, ?_, ?_, ?_, ?_, ?_, by simp⟩ <;> norm_num <;> assumption
  | process buf =>
    by_cases hfast : st.active = false ∧ st.currentGain = 1
    · simpa [applyDuckOp, processBuffer, hfast] using
        ⟨hc0, hc1, hs0, hs1, ht0, ht1, helapsed⟩
    · have hinv := rampInv_processSamples
        (⟨hc0, hc1, hs0, hs1, ht0, ht1, helapsed⟩ : RampInv st) (readSamples buf)
      simp only [applyDuckOp, processBuffer, if_neg hfast]
      by_cases hlen : buf.length % 2 = 0 <;> simp [hlen, hinv]

theorem rampInv_foldl {cfg : AudioProcessorCfg}
    (hg0 : 0 ≤ cfg.ducking.reductionGain) (hg1 : cfg.ducking.reductionGain ≤ 1)
    (ops : List DuckOp) :
    ∀ st : GainRampState, RampInv st → RampInv (ops.foldl (applyDuckOp cfg) st) := by
  induction ops with
  | nil => exact fun st h => h
  | cons op rest ih =>
    intro st h
    rw [List.foldl_cons]
    exact ih _ (rampInv_applyOp hg0 hg1 h op)

theorem rampInv_run (cfg : AudioProcessorCfg)
    (hg0 : 0 ≤ cfg.ducking.reductionGain) (hg1 : cfg.ducking.reductionGain ≤ 1)
    (ops : List DuckOp) : RampInv (runDuckOps cfg ops) := by
  have hinit : RampInv (initRamp cfg) := by
    refine ⟨?_, ?_, ?_, ?_, ?_, ?_, ?_⟩ <;> simp [initRamp]
  exact rampInv_foldl hg0 hg1 ops (initRamp cfg) hinit

theorem sampleStep_commit {st : GainRampState} (s : ℤ) (hact : st.active = true)
    (hdone : (sampleStep st s).1.active = false) :
    (sampleStep st s).1.currentGain = (sampleStep st s).1.targetGain := by
  by_cases hge : st.elapsedSamples + 1 ≥ st.rampSamples
  · simp [sampleStep, hact, hge]
  · exfalso
    simp [sampleStep, hact, hge] at hdone

/-- C6 (amended): for every sequence of `startDucking`, `stopDucking`, and
`processBuffer` calls on an `AudioProcessor` whose profile has a linear
reduction gain in `[0, 1]` (equivalently, `reduction_db ≤ 0` — the spec's
presets all satisfy this, but an arbitrary custom value need not, see
`c6_gain_bound_counterexample`), the ramp state always keeps
`0 ≤ current_gain ≤ 1`; while a ramp is active,
`0 ≤ elapsed_samples ≤ ramp_samples_total`; and a per-sample step that
completes the ramp commits `current_gain = target_gain` with
`active = false`. -/
theorem c6_ramp_invariants (cfg : AudioProcessorCfg)
    (hg0 : 0 ≤ cfg.ducking.reductionGain) (hg1 : cfg.ducking.reductionGain ≤ 1)
    (ops : List DuckOp) (s : ℤ) :
    (0 ≤ (runDuckOps cfg ops).currentGain ∧ (runDuckOps cfg ops).currentGain ≤ 1) ∧
    ((runDuckOps cfg ops).active = true →
      (runDuckOps cfg ops).elapsedSamples ≤ (runDuckOps cfg ops).rampSamples) ∧
    ((runDuckOps cfg ops).active = true →
      (sampleStep (runDuckOps cfg ops) s).1.active = false →
      (sampleStep (runDuckOps cfg ops) s).1.currentGain =
        (sampleStep (runDuckOps cfg ops) s).1.targetGain) := by
  obtain ⟨hc0, hc1, _, _, _, _, he⟩ := rampInv_run cfg hg0 hg1 ops
  exact ⟨⟨hc0, hc1⟩, he, fun hact hdone => sampleStep_commit s hact hdone⟩

/-- C6 counterexample: with the custom profile at `reductionDb = +20` (linear
gain `dbToGain(20) = 10`), a single immediate `startDucking` call leaves
`current_gain = 10`, violating the claimed `current_gain ≤ 1` invariant. -/
theorem c6_gain_bound_counterexample :
    (runDuckOps cfgCustomPlus20 [DuckOp.start true]).currentGain = 10 ∧
    ¬ (runDuckOps cfgCustomPlus20 [DuckOp.start true]).currentGain ≤ 1 := by
  norm_num [runDuckOps, applyDuckOp, startDucking, duckTargetGain, initRamp,
    cfgCustomPlus20, dbToGainTwentyK]

/-- Witness for `c6_ramp_invariants` at the custom −20 dB profile with an
immediate duck, one processed buffer, and a ramped release. -/
theorem c6_ramp_invariants_witness :
    (0 ≤ cfgCustomMinus20.ducking.reductionGain) ∧
    (cfgCustomMinus20.ducking.reductionGain ≤ 1) ∧
    ((0 ≤ (runDuckOps cfgCustomMinus20
            [DuckOp.start true, DuckOp.process [16, 39, 0, 0], DuckOp.stop false]).currentGain ∧
      (runDuckOps cfgCustomMinus20
            [DuckOp.start true, DuckOp.process [16, 39, 0, 0], DuckOp.stop false]).currentGain ≤ 1) ∧
     ((runDuckOps cfgCustomMinus20
            [DuckOp.start true, DuckOp.process [16, 39, 0, 0], DuckOp.stop false]).active = true →
       (runDuckOps cfgCustomMinus20
            [DuckOp.start true, DuckOp.process [16, 39, 0, 0], DuckOp.stop false]).elapsedSamples ≤
         (runDuckOps cfgCustomMinus20
            [DuckOp.start true, DuckOp.process [16, 39, 0, 0], DuckOp.stop false]).rampSamples) ∧
     ((runDuckOps cfgCustomMinus20
            [DuckOp.start true, DuckOp.process [16, 39, 0, 0], DuckOp.stop false]).active = true →
       (sampleStep (runDuckOps cfgCustomMinus20
            [DuckOp.start true, DuckOp.process [16, 39, 0, 0], DuckOp.stop false]) 0).1.active = false →
       (sampleStep (runDuckOps cfgCustomMinus20
            [DuckOp.start true, DuckOp.process [16, 39, 0, 0], DuckOp.stop false]) 0).1.currentGain =
         (sampleStep (runDuckOps cfgCustomMinus20
            [DuckOp.start true, DuckOp.process [16, 39, 0, 0], DuckOp.stop false]) 0).1.targetGain)) :=
  ⟨by norm_num [cfgCustomMinus20, dbToGainTwentyK],
   by norm_num [cfgCustomMinus20, dbToGainTwentyK],
   c6_ramp_invariants cfgCustomMinus20
     (by norm_num [cfgCustomMinus20, dbToGainTwentyK])
     (by norm_num [cfgCustomMinus20, dbToGainTwentyK])
     [DuckOp.start true, DuckOp.process [16, 39, 0, 0], DuckOp.stop false] 0⟩

/-! ## C1: per-sample gain application -/

theorem jsRound_intCast (v : ℤ) : jsRound (v : ℚ) = v := by
  unfold jsRound
  rw [Int.floor_int_add]
  norm_num

theorem clamp16_eq_self {v : ℤ} (h0 : -32768 ≤ v) (h1 : v ≤ 32767) :
    clamp16 v = v := by
  simp only [clamp16]
  omega

theorem clamp16_mem (v : ℤ) : -32768 ≤ clamp16 v ∧ clamp16 v ≤ 32767 := by
  simp only [clamp16]
  omega

theorem decode16_mem {b0 b1 : ℕ} (h0 : b0 < 256) (h1 : b1 < 256) :
    -32768 ≤ decode16 b0 b1 ∧ decode16 b0 b1 ≤ 32767 := by
  simp only [decode16]
  split <;> omega

theorem decode16_encode16 {v : ℤ} (h0 : -32768 ≤ v) (h1 : v ≤ 32767) :
    decode16 ((v % 65536).toNat % 256) ((v % 65536).toNat / 256) = v := by
  simp only [decode16]
  split <;> omega

theorem sampleStep_out {st : GainRampState} (s : ℤ)
    (hA : st.active = true → st.elapsedSamples < st.rampSamples) :
    (sampleStep st s).2 = clamp16 (jsRound ((s : ℚ) * gainAtPos st 0)) := by
  by_cases hact : st.active = true
  · have hlt := hA hact
    simp [sampleStep, gainAtPos, hact, hlt, computeRampGain]
  · simp [sampleStep, gainAtPos, hact]

theorem gainAtPos_shift {st : GainRampState} (s : ℤ) (j : ℕ)
    (hA : st.active = true → st.elapsedSamples < st.rampSamples) :
    gainAtPos (sampleStep st s).1 j = gainAtPos st (j + 1) := by
  by_cases hact : st.active = true
  · by_cases hge : st.elapsedSamples + 1 ≥ st.rampSamples
    · simp only [sampleStep, hact, if_true, if_pos hge, gainAtPos]
      have hnot : ¬ (st.elapsedSamples + (j + 1) < st.rampSamples) := by omega
      simp [hnot]
    · simp only [sampleStep, hact, if_true, if_neg hge, gainAtPos]
      have h1 : st.elapsedSamples + 1 + j = st.elapsedSamples + (j + 1) := by omega
      simp [h1]
  · simp [sampleStep, hact, gainAtPos]

theorem sampleStep_progress {st : GainRampState} (s : ℤ)
    (hA : st.active = true → st.elapsedSamples < st.rampSamples) :
    (sampleStep st s).1.active = true →
      (sampleStep st s).1.elapsedSamples < (sampleStep st s).1.rampSamples := by
  by_cases hact : st.active = true
  · by_cases hge : st.elapsedSamples + 1 ≥ st.rampSamples
    · simp [sampleStep, hact, hge]
    · simp only [sampleStep, hact, if_true, if_neg hge]
      intro _
      omega
  · have hstep : (sampleStep st s).1 = st := by simp [sampleStep, hact]
    rw [hstep]
    exact fun h => absurd h hact

theorem processSamples_spec (ss : List ℤ) (st : GainRampState)
    (hA : st.active = true → st.elapsedSamples < st.rampSamples) :
    (processSamples st ss).2.length = ss.length ∧
    ∀ j, j < ss.length →
      (processSamples st ss).2.getD j 0 =
        clamp16 (jsRound ((ss.getD j 0 : ℚ) * gainAtPos st j)) := by
  induction ss generalizing st with
  | nil => exact ⟨rfl, fun j hj => absurd hj (by simp)⟩
  | cons s rest ih =>
    obtain ⟨ihlen, ihval⟩ := ih (sampleStep st s).1 (sampleStep_progress s hA)
    refine ⟨by simp [processSamples, ihlen], ?_⟩
    intro j hj
    cases j with
    | zero => simpa [processSamples] using sampleStep_out s hA
    | succ j' =>
      have hj' : j' < rest.length := by simpa using hj
      simp only [processSamples, List.getD_cons_succ]
      rw [ihval j' hj', gainAtPos_shift s j' hA]

theorem processSamples_mem_range (ss : List ℤ) (st : GainRampState) :
    ∀ v ∈ (processSamples st ss).2, -32768 ≤ v ∧ v ≤ 32767 := by
  induction ss generalizing st with
  | nil => simp [processSamples]
  | cons s rest ih =>
    intro v hv
    simp only [processSamples, List.mem_cons] at hv
    rcases hv with hv | hv
    · subst hv; exact clamp16_mem _
    · exact ih (sampleStep st s).1 v hv

theorem readSamples_length :
    ∀ buf : List ℕ, buf.length % 2 = 0 → (readSamples buf).length = buf.length / 2
  | [], _ => rfl
  | [_], h => by simp at h
  | _ :: _ :: rest, h => by
    have ih := readSamples_length rest (by simp only [List.length_cons] at h; omega)
    simp only [readSamples, List.length_cons, ih]
    omega

theorem writeSamples_length (vs : List ℤ) : (writeSamples vs).length = 2 * vs.length := by
  induction vs with
  | nil => rfl
  | cons v rest ih =>
    simp only [writeSamples, List.flatMap_cons, List.length_append, encode16,
      List.length_cons, List.length_nil] at ih ⊢
    omega

theorem writeSamples_getD (vs : List ℤ) (j : ℕ) (hj : j < vs.length) :
    (writeSamples vs).getD (2 * j) 0 = ((vs.getD j 0) % 65536).toNat % 256 ∧
    (writeSamples vs).getD (2 * j + 1) 0 = ((vs.getD j 0) % 65536).toNat / 256 := by
  induction vs generalizing j with
  | nil => simp at hj
  | cons v rest ih =>
    cases j with
    | zero => simp [writeSamples, encode16]
    | succ j' =>
      have h2 : 2 * (j' + 1) = 2 * j' + 1 + 1 := by omega
      have h3 : 2 * (j' + 1) + 1 = 2 * j' + 1 + 1 + 1 := by omega
      simp only [writeSamples, List.flatMap_cons, encode16, List.cons_append,
        List.nil_append, h2, h3, List.getD_cons_succ, List.getD_cons_zero]
      exact ih j' (by simpa using hj)

theorem readAt_writeSamples (vs : List ℤ) (j : ℕ) (hj : j < vs.length)
    (hrange : ∀ v ∈ vs, -32768 ≤ v ∧ v ≤ 32767) :
    readAt (writeSamples vs) j = vs.getD j 0 := by
  obtain ⟨h0, h1⟩ := writeSamples_getD vs j hj
  have hv : vs.getD j 0 ∈ vs := by
    rw [List.getD_eq_getElem vs 0 hj]
    exact List.getElem_mem hj
  obtain ⟨hr0, hr1⟩ := hrange _ hv
  rw [readAt, h0, h1, decode16_encode16 hr0 hr1]

theorem readSamples_getD :
    ∀ (buf : List ℕ) (j : ℕ), 2 * j + 1 < buf.length →
      (readSamples buf).getD j 0 = readAt buf j
  | [], j, h => by simp at h
  | [_], j, h => by simp only [List.length_cons, List.length_nil] at h; omega
  | b0 :: b1 :: rest, 0, _ => by simp [readSamples, readAt]
  | b0 :: b1 :: rest, j + 1, h => by
    have hrest : 2 * j + 1 < rest.length := by
      simp only [List.length_cons] at h
      omega
    have ih := readSamples_getD rest j hrest
    have h2 : 2 * (j + 1) = 2 * j + 1 + 1 := by omega
    have h3 : 2 * (j + 1) + 1 = 2 * j + 1 + 1 + 1 := by omega
    simp only [readSamples, List.getD_cons_succ, readAt, h2, h3] at *
    exact ih

/-- The byte at any position of a buffer whose bytes are `< 256` (positions
past the end read the `getD` default `0`). -/
theorem getD_byte_lt {buf : List ℕ} (h : ∀ b ∈ buf, b < 256) (n : ℕ) :
    buf.getD n 0 < 256 := by
  by_cases hn : n < buf.length
  · rw [List.getD_eq_getElem buf 0 hn]
    exact h _ (List.getElem_mem hn)
  · rw [List.getD_eq_default buf 0 (by omega)]
    norm_num

/-- C1 (amended): for every process call on a buffer of even byte length
(valid bytes; and, when a ramp is active, the reachable-state condition
`elapsed_samples < ramp_samples_total`, which excludes the degenerate
zero-length-ramp configuration on which the source computes NaN), the call
succeeds, the output has exactly as many bytes as the input, every 16-bit
little-endian output sample equals
`clamp(round(input_sample × gain_at_that_position), −32768, 32767)` with the
gain given by `gainAtPos` (held gain, or the interpolated ramp value at that
sample position), and with no ramp active and gain 1.0 the output is the
input byte-for-byte.  On odd byte lengths the call instead raises, see
`c1_processBuffer_odd_counterexample`. -/
theorem c1_processBuffer_even (st : GainRampState) (buf : List ℕ) (j : ℕ)
    (heven : buf.length % 2 = 0)
    (hbytes : ∀ b ∈ buf, b < 256)
    (hA : st.active = true → st.elapsedSamples < st.rampSamples)
    (hj : j < buf.length / 2) :
    (processBuffer st buf).2 = .ok (duckedOut st buf) ∧
    (duckedOut st buf).length = buf.length ∧
    readAt (duckedOut st buf) j =
      clamp16 (jsRound ((readAt buf j : ℚ) * gainAtPos st j)) ∧
    (st.active = false ∧ st.currentGain = 1 → duckedOut st buf = buf) := by
  by_cases hfast : st.active = false ∧ st.currentGain = 1
  · have hout : duckedOut st buf = buf := by simp [duckedOut, processBuffer, hfast]
    refine ⟨by simp [processBuffer, hfast, hout], by rw [hout], ?_, fun _ => hout⟩
    rw [hout]
    have hmem := decode16_mem (getD_byte_lt hbytes (2 * j)) (getD_byte_lt hbytes (2 * j + 1))
    have hgain : gainAtPos st j = 1 := by
      simp [gainAtPos, hfast.1, hfast.2]
    rw [hgain, mul_one, jsRound_intCast]
    exact (clamp16_eq_self hmem.1 hmem.2).symm
  · have hsame : (processBuffer st buf).2 = .ok (writeSamples (processSamples st (readSamples buf)).2) := by
      simp [processBuffer, hfast, heven]
    have hout : duckedOut st buf = writeSamples (processSamples st (readSamples buf)).2 := by
      simp [duckedOut, hsame]
    obtain ⟨hlen, hval⟩ := processSamples_spec (readSamples buf) st hA
    have hrl := readSamples_length buf heven
    have hjlen : j < (processSamples st (readSamples buf)).2.length := by
      rw [hlen, hrl]; exact hj
    refine ⟨by rw [hout]; exact hsame, ?_, ?_, fun h => absurd h hfast⟩
    · rw [hout, writeSamples_length, hlen, hrl]
      omega
    · rw [hout, readAt_writeSamples _ j hjlen (processSamples_mem_range _ st),
        hval j (by rw [hrl]; exact hj),
        readSamples_getD buf j (by omega)]

/-- C1 counterexample: the claim quantifies over *every* input buffer, but on
a 3-byte buffer with the gain held at 1/2, `processBuffer` produces no output
at all — the fractional loop bound drives `readInt16LE` past the end and an
`ERR_OUT_OF_RANGE` error is thrown — so the output does not have as many
bytes as the input. -/
theorem c1_processBuffer_odd_counterexample :
    (processBuffer
        { active := false, startGain := 1/2, targetGain := 1/2, currentGain := 1/2,
          rampSamples := 0, elapsedSamples := 0, curve := .linear }
        [0, 0, 0]).2 = .error "ERR_OUT_OF_RANGE" := by
  norm_num [processBuffer]

/-- The gain-ramp state for the `c1_processBuffer_even` witness: a linear
4-sample ramp from gain 1 to 0, freshly started. -/
def rampW : GainRampState :=
  { active := true, startGain := 1, targetGain := 0, currentGain := 1,
    rampSamples := 4, elapsedSamples := 0, curve := .linear }

/-- The buffer for the `c1_processBuffer_even` witness: samples 1000, 1000. -/
def bufW : List ℕ := [232, 3, 232, 3]

/-! ## C10: odd-length chunks are dropped whole by the VAD -/

/-- C10: `processAudio` on a non-empty buffer of odd byte length drops the
entire chunk: the detector state (speaking flag, counters, histories, noise
floor, thresholds, peak energy, confidence) is returned unchanged and no
callback fires. -/
theorem c10_odd_chunk_dropped (o : VadOptions) (st : VadState) (buf : List ℕ)
    (hne : buf ≠ []) (hodd : buf.length % 2 = 1) :
    processAudio o st buf = (st, []) := by
  unfold processAudio
  rw [if_neg (fun h => hne (List.length_eq_zero.mp h)), if_pos (by omega)]

/-- Witness for `c10_odd_chunk_dropped`: the 3-byte chunk `[1, 2, 3]` into a
freshly constructed default detector. -/
theorem c10_odd_chunk_dropped_witness :
    (([1, 2, 3] : List ℕ) ≠ []) ∧ (([1, 2, 3] : List ℕ).length % 2 = 1) ∧
    processAudio defaultVadOptions (initVad defaultVadOptions) [1, 2, 3] =
      (initVad defaultVadOptions, []) :=
  ⟨by decide, by decide,
   c10_odd_chunk_dropped defaultVadOptions (initVad defaultVadOptions) [1, 2, 3]
     (by decide) (by decide)⟩

/-! ## C7: VAD state invariants -/

theorem clamp01_mem (x : ℝ) : 0 ≤ max 0 (min 1 x) ∧ max 0 (min 1 x) ≤ 1 :=
  ⟨le_max_left 0 _, max_le zero_le_one (min_le_left 1 x)⟩

theorem energyConf_mem (st : VadState) :
    0 ≤ computeEnergyConfidence st ∧ computeEnergyConfidence st ≤ 1 := by
  unfold computeEnergyConfidence
  split
  · norm_num
  · exact clamp01_mem _

theorem consistencyConf_mem (st : VadState) :
    0 ≤ computeConsistencyConfidence st ∧ computeConsistencyConfidence st ≤ 1 := by
  unfold computeConsistencyConfidence
  split
  · norm_num
  · exact clamp01_mem _

theorem spectralConf_mem (o : VadOptions) :
    0 ≤ (if o.spectralAnalysis then computeSpectralConfidence else 0.5) ∧
    (if o.spectralAnalysis then computeSpectralConfidence else 0.5) ≤ 1 := by
  split <;> norm_num [computeSpectralConfidence]

theorem updateConfidence_inv {o : VadOptions} {st : VadState} (h : VadInv st) :
    VadInv (updateConfidence o st) := by
  obtain ⟨h1, h2, h3, h4, h5⟩ := h
  have he := energyConf_mem st
  have hc := consistencyConf_mem st
  have hs := spectralConf_mem o
  refine ⟨h1, h2, h3, ?_, ?_⟩
  · show (0 : ℝ) ≤ st.currentConfidence * (1 - 0.15) +
      (computeEnergyConfidence st * 0.4 + computeConsistencyConfidence st * 0.4 +
        (if o.spectralAnalysis then computeSpectralConfidence else 0.5) * 0.2) * 0.15
    nlinarith [he.1, hc.1, hs.1]
  · show st.currentConfidence * (1 - 0.15) +
      (computeEnergyConfidence st * 0.4 + computeConsistencyConfidence st * 0.4 +
        (if o.spectralAnalysis then computeSpectralConfidence else 0.5) * 0.2) * 0.15 ≤ 1
    nlinarith [he.2, hc.2, hs.2]

theorem speechLogic_inv {o : VadOptions} {st : VadState} (rms eff : ℝ)
    (h : VadInv st) : VadInv (speechLogic o st rms eff).1 := by
  obtain ⟨h1, h2, h3, h4, h5⟩ := h
  unfold speechLogic
  dsimp only
  split
  · split
    · split
      · exact ⟨h1, h2, h3, h4, h5⟩
      · exact ⟨h1, h2, h3, h4, h5⟩
    · exact ⟨h1, h2, h3, h4, h5⟩
  · split
    · split
      · split
        · refine ⟨h1, h2, h3, ?_, ?_⟩
          · show (0 : ℝ) ≤ st.currentConfidence * 0.5
            nlinarith
          · show st.currentConfidence * 0.5 ≤ 1
            nlinarith
        · exact ⟨h1, h2, h3, h4, h5⟩
      · exact ⟨h1, h2, h3, h4, h5⟩
    · exact ⟨h1, h2, h3, h4, h5⟩

theorem updateNoiseFloor_bounds {o : VadOptions} {st : VadState} (rms : ℝ)
    (h : VadInv st) :
    VadInv (updateNoiseFloor o st rms) ∧
    (updateNoiseFloor o st rms).currentConfidence = st.currentConfidence ∧
    (updateNoiseFloor o st rms).speechFrameCount = st.speechFrameCount ∧
    (updateNoiseFloor o st rms).speaking = st.speaking := by
  unfold updateNoiseFloor
  dsimp only
  split
  · obtain ⟨g1, g2, g3, g4, g5⟩ := h
    refine ⟨⟨?_, ?_, g3, g4, g5⟩, rfl, rfl, rfl⟩
    · exact le_max_left _ _
    · exact max_le (by norm_num) (min_le_left _ _)
  · exact ⟨h, rfl, rfl, rfl⟩

theorem vadInv_preFrame {o : VadOptions} {st : VadState} (rms : ℝ) (h : VadInv st) :
    VadInv (preFrame o st rms) := by
  obtain ⟨h1, h2, h3, h4, h5⟩ := h
  unfold preFrame
  dsimp only
  set st1 : VadState := { st with
      energyHistory := pushHistory st.energyHistory rms,
      peakEnergy := max (st.peakEnergy * 0.999) rms } with hst1def
  have hst1 : VadInv st1 := ⟨h1, h2, h3, h4, h5⟩
  have hmid : VadInv (if o.adaptiveThreshold = true then
      { updateNoiseFloor o st1 rms with
        speechThreshold := (updateNoiseFloor o st1 rms).noiseFloor * 2.5,
        releaseThreshold := (updateNoiseFloor o st1 rms).noiseFloor * (2.5 * 0.6) }
      else st1) := by
    split
    · obtain ⟨⟨g1, g2, _, g4, g5⟩, _, _, _⟩ :=
        @updateNoiseFloor_bounds o st1 rms hst1
      refine ⟨g1, g2, ?_, g4, g5⟩
      show (updateNoiseFloor o st1 rms).noiseFloor * (2.5 * 0.6) <
        (updateNoiseFloor o st1 rms).noiseFloor * 2.5
      nlinarith
    · exact hst1
  split
  · exact updateConfidence_inv hmid
  · exact hmid

theorem vadInv_processFrame {o : VadOptions} {st : VadState}
    (buf : List ℕ) (off fsz : ℕ) (h : VadInv st) :
    VadInv (processFrame o st buf off fsz).1 := by
  unfold processFrame
  dsimp only
  exact speechLogic_inv _ _ (vadInv_preFrame (computeRms buf off fsz) h)

theorem foldl_preserve {α β : Type} (P : α → Prop) (f : α → β → α)
    (hf : ∀ a b, P a → P (f a b)) : ∀ (l : List β) (a : α), P a → P (l.foldl f a) := by
  intro l
  induction l with
  | nil => exact fun a h => h
  | cons b rest ih => exact fun a h => ih (f a b) (hf a b h)

theorem vadInv_processAudio {o : VadOptions} {st : VadState} (buf : List ℕ)
    (h : VadInv st) : VadInv (processAudio o st buf).1 := by
  unfold processAudio
  split
  · exact h
  · split
    · exact h
    · refine foldl_preserve (fun (acc : VadState × List VadEvent) => VadInv acc.1)
        _ ?_ _ (st, []) h
      intro a b ha
      exact vadInv_processFrame buf b _ ha

/-- C7: with the default-constructed enhanced VAD, the frame step preserves
the state invariant — `0.0001 ≤ noise_floor ≤ 0.1`,
`speech_threshold > release_threshold`, `current_confidence ∈ [0, 1]` — the
freshly constructed detector satisfies it, and hence it holds at all times
over every processed chunk sequence. -/
theorem c7_vad_invariants :
    (∀ (st : VadState) (buf : List ℕ) (off fsz : ℕ), VadInv st →
      VadInv (processFrame defaultVadOptions st buf off fsz).1) ∧
    VadInv (initVad defaultVadOptions) ∧
    (∀ bufs : List (List ℕ),
      VadInv (vadRunBufs defaultVadOptions (initVad defaultVadOptions) bufs)) := by
  have hinit : VadInv (initVad defaultVadOptions) := by
    refine ⟨?_, ?_, ?_, ?_, ?_⟩ <;> norm_num [initVad, defaultVadOptions]
  refine ⟨fun st buf off fsz h => vadInv_processFrame buf off fsz h, hinit, ?_⟩
  intro bufs
  exact foldl_preserve VadInv _ (fun acc buf hacc => vadInv_processAudio buf hacc)
    bufs (initVad defaultVadOptions) hinit

/-- Witness for `c7_vad_invariants`: the invariant holds for the fresh
default detector and is preserved across one (degenerate) frame. -/
theorem c7_vad_invariants_witness :
    VadInv (initVad defaultVadOptions) ∧
    VadInv (processFrame defaultVadOptions (initVad defaultVadOptions) [] 0 0).1 :=
  ⟨by refine ⟨?_, ?_, ?_, ?_, ?_⟩ <;> norm_num [VadInv, initVad, defaultVadOptions],
   c7_vad_invariants.1 (initVad defaultVadOptions) [] 0 0
     (by refine ⟨?_, ?_, ?_, ?_, ?_⟩ <;> norm_num [VadInv, initVad, defaultVadOptions])⟩

/-! ## C8: what a speaking transition requires -/

theorem updateNoiseFloor_counts (o : VadOptions) (st : VadState) (rms : ℝ) :
    (updateNoiseFloor o st rms).speechFrameCount = st.speechFrameCount ∧
    (updateNoiseFloor o st rms).speaking = st.speaking := by
  unfold updateNoiseFloor
  dsimp only
  split <;> exact ⟨rfl, rfl⟩

theorem preFrame_counts (o : VadOptions) (st : VadState) (rms : ℝ) :
    (preFrame o st rms).speechFrameCount = st.speechFrameCount ∧
    (preFrame o st rms).speaking = st.speaking := by
  constructor
  · unfold preFrame
    dsimp only
    split <;> split
    · exact (updateNoiseFloor_counts o _ rms).1
    · rfl
    · exact (updateNoiseFloor_counts o _ rms).1
    · rfl
  · unfold preFrame
    dsimp only
    split <;> split
    · exact (updateNoiseFloor_counts o _ rms).2
    · rfl
    · exact (updateNoiseFloor_counts o _ rms).2
    · rfl

theorem speechLogic_count (o : VadOptions) (st : VadState) (rms eff : ℝ) :
    (speechLogic o st rms eff).1.speechFrameCount ≤ st.speechFrameCount +
      (if (speechLogic o st rms eff).2.1 = FrameTag.qualifying then 1 else 0) := by
  unfold speechLogic
  dsimp only
  split
  · split
    · split
      · simp
      · simp
    · simp
  · split
    · split
      · split
        · simp
        · simp
      · simp
    · simp [Nat.sub_le]

theorem speechLogic_trans (o : VadOptions) (st : VadState) (rms eff : ℝ)
    (hns : st.speaking = false) :
    (speechLogic o st rms eff).1.speaking = true →
    minSpeechFrames o ≤ (speechLogic o st rms eff).1.speechFrameCount := by
  unfold speechLogic
  dsimp only
  by_cases hA : eff ≤ rms
  · rw [if_pos hA]
    by_cases hB : st.speaking = false ∧ minSpeechFrames o ≤ st.speechFrameCount + 1
    · rw [if_pos hB]
      by_cases hC : o.confidenceEnabled = false ∨ (0.4 : ℝ) ≤ st.currentConfidence
      · rw [if_pos hC]
        exact fun _ => hB.2
      · rw [if_neg hC]
        intro hs
        simp [hns] at hs
    · rw [if_neg hB]
      intro hs
      simp [hns] at hs
  · rw [if_neg hA]
    by_cases hD : rms ≤ st.releaseThreshold
    · rw [if_pos hD]
      by_cases hE : st.speaking = true
      · exact absurd hE (by simp [hns])
      · rw [if_neg hE]
        intro hs
        simp [hns] at hs
    · rw [if_neg hD]
      intro hs
      simp [hns] at hs

theorem processFrame_count (o : VadOptions) (st : VadState) (buf : List ℕ)
    (off fsz : ℕ) :
    (processFrame o st buf off fsz).1.speechFrameCount ≤ st.speechFrameCount +
      (if (processFrame o st buf off fsz).2.1 = FrameTag.qualifying then 1 else 0) := by
  unfold processFrame
  dsimp only
  have h := speechLogic_count o (preFrame o st (computeRms buf off fsz))
    (computeRms buf off fsz)
    (if o.confidenceEnabled = true then
      (preFrame o st (computeRms buf off fsz)).speechThreshold *
        (1 - (preFrame o st (computeRms buf off fsz)).currentConfidence * 0.3)
      else (preFrame o st (computeRms buf off fsz)).speechThreshold)
  rw [(preFrame_counts o st (computeRms buf off fsz)).1] at h
  exact h

theorem processFrame_trans (o : VadOptions) (st : VadState) (buf : List ℕ)
    (off fsz : ℕ) (hns : st.speaking = false)
    (hs : (processFrame o st buf off fsz).1.speaking = true) :
    minSpeechFrames o ≤ (processFrame o st buf off fsz).1.speechFrameCount := by
  unfold processFrame at hs ⊢
  dsimp only at hs ⊢
  exact speechLogic_trans o (preFrame o st (computeRms buf off fsz))
    (computeRms buf off fsz) _
    (by rw [(preFrame_counts o st (computeRms buf off fsz)).2]; exact hns) hs

theorem countQualifying_cons (t : FrameTag) (ts : List FrameTag) :
    countQualifying (t :: ts) =
      (if t = FrameTag.qualifying then 1 else 0) + countQualifying ts := by
  by_cases ht : t = FrameTag.qualifying
  · simp [countQualifying, List.filter_cons, ht, Nat.add_comm]
  · simp [countQualifying, List.filter_cons, ht]

theorem vadStepsF_count_le (o : VadOptions) :
    ∀ (fs : List FrameSpec) (st : VadState),
      (vadStepsF o st fs).speechFrameCount ≤
        st.speechFrameCount + countQualifying (vadTagsF o st fs) := by
  intro fs
  induction fs with
  | nil =>
    intro st
    simp [vadStepsF, vadTagsF, countQualifying]
  | cons f rest ih =>
    intro st
    have h1 := processFrame_count o st f.1 f.2.1 f.2.2
    have h2 := ih (processFrame o st f.1 f.2.1 f.2.2).1
    simp only [vadStepsF, vadTagsF]
    rw [countQualifying_cons]
    by_cases htag : (processFrame o st f.1 f.2.1 f.2.2).2.1 = FrameTag.qualifying
    · rw [if_pos htag] at h1
      rw [if_pos htag]
      omega
    · rw [if_neg htag] at h1
      rw [if_neg htag]
      omega

theorem vadStepsF_append (o : VadOptions) :
    ∀ (xs ys : List FrameSpec) (st : VadState),
      vadStepsF o st (xs ++ ys) = vadStepsF o (vadStepsF o st xs) ys := by
  intro xs
  induction xs with
  | nil => exact fun ys st => rfl
  | cons f rest ih =>
    intro ys st
    simp only [List.cons_append, vadStepsF]
    exact ih ys _

theorem vadTagsF_append (o : VadOptions) :
    ∀ (xs ys : List FrameSpec) (st : VadState),
      vadTagsF o st (xs ++ ys) =
        vadTagsF o st xs ++ vadTagsF o (vadStepsF o st xs) ys := by
  intro xs
  induction xs with
  | nil => exact fun ys st => rfl
  | cons f rest ih =>
    intro ys st
    simp only [List.cons_append, vadTagsF, vadStepsF, List.append_eq]
    rw [ih ys _]

/-- C8 (amended): a transition from `speaking = false` to `speaking = true`
at frame `i` (counting from a state whose speech-frame counter is zero)
requires at least `speech_frames_required` frames among frames `0..i` whose
rms was at or above the effective speech threshold — the counter increments
on such frames, decays by one on intermediate frames, and resets on
sub-release frames — but those qualifying frames need *not* be consecutive:
interleaved intermediate frames merely delay the transition (see
`c8_nonconsecutive_counterexample`). -/
theorem c8_transition_requires_count (o : VadOptions) (st0 : VadState)
    (frames : List FrameSpec) (i : ℕ)
    (hc0 : st0.speechFrameCount = 0)
    (hns : (vadStepsF o st0 (frames.take i)).speaking = false)
    (hs : (vadStepsF o st0 (frames.take (i + 1))).speaking = true) :
    minSpeechFrames o ≤ countQualifying (vadTagsF o st0 (frames.take (i + 1))) := by
  rcases lt_or_ge i frames.length with hi | hi
  · have htake : frames.take (i + 1) = frames.take i ++ [frames[i]] := by
      rw [List.take_succ, List.getElem?_eq_getElem hi]
      rfl
    rw [htake] at hs ⊢
    rw [vadStepsF_append] at hs
    have hstep : vadStepsF o (vadStepsF o st0 (frames.take i)) [frames[i]] =
        (processFrame o (vadStepsF o st0 (frames.take i)) (frames[i]).1
          (frames[i]).2.1 (frames[i]).2.2).1 := rfl
    rw [hstep] at hs
    have htr := processFrame_trans o (vadStepsF o st0 (frames.take i)) (frames[i]).1
      (frames[i]).2.1 (frames[i]).2.2 hns hs
    have hcnt := vadStepsF_count_le o (frames.take i ++ [frames[i]]) st0
    rw [vadStepsF_append, hstep, hc0] at hcnt
    omega
  · have hgei : frames.take i = frames := List.take_of_length_le hi
    have hgei1 : frames.take (i + 1) = frames := List.take_of_length_le (by omega)
    rw [hgei] at hns
    rw [hgei1] at hs
    rw [hns] at hs
    exact absurd hs (by decide)

theorem computeRms_pair (b0 b1 : ℕ) (h : 0 ≤ decode16 b0 b1) :
    computeRms [b0, b1] 0 1 = (decode16 b0 b1 : ℝ) / 32768 := by
  have he : frameEnergy [b0, b1] 0 1 = ((decode16 b0 b1 : ℝ) / 32768) ^ 2 := by
    unfold frameEnergy
    simp [List.range_succ]
  unfold computeRms
  rw [he]
  norm_num
  exact Real.sqrt_sq (div_nonneg (by exact_mod_cast h) (by norm_num))

theorem processFrame_simple (o : VadOptions) (ho1 : o.adaptiveThreshold = false)
    (ho2 : o.confidenceEnabled = false) (st : VadState) (buf : List ℕ) (off fsz : ℕ) :
    processFrame o st buf off fsz =
      speechLogic o
        { st with energyHistory := pushHistory st.energyHistory (computeRms buf off fsz),
                  peakEnergy := max (st.peakEnergy * 0.999) (computeRms buf off fsz) }
        (computeRms buf off fsz) st.speechThreshold := by
  unfold processFrame preFrame
  simp [ho1, ho2]

theorem pf_qual_step (o : VadOptions) (ho1 : o.adaptiveThreshold = false)
    (ho2 : o.confidenceEnabled = false) (st : VadState) (buf : List ℕ) (off fsz : ℕ)
    (h : st.speechThreshold ≤ computeRms buf off fsz) :
    (processFrame o st buf off fsz).2.1 = FrameTag.qualifying ∧
    (processFrame o st buf off fsz).1.speechThreshold = st.speechThreshold ∧
    (processFrame o st buf off fsz).1.releaseThreshold = st.releaseThreshold ∧
    (processFrame o st buf off fsz).1.speechFrameCount = st.speechFrameCount + 1 ∧
    (processFrame o st buf off fsz).1.speaking =
      (st.speaking || decide (minSpeechFrames o ≤ st.speechFrameCount + 1)) := by
  rw [processFrame_simple o ho1 ho2 st buf off fsz]
  unfold speechLogic
  dsimp only
  rw [if_pos h]
  by_cases hB : st.speaking = false ∧ minSpeechFrames o ≤ st.speechFrameCount + 1
  · rw [if_pos hB, if_pos (Or.inl ho2)]
    refine ⟨rfl, rfl, rfl, rfl, ?_⟩
    rw [hB.1]
    simp [hB.2]
  · rw [if_neg hB]
    refine ⟨rfl, rfl, rfl, rfl, ?_⟩
    cases hsp : st.speaking
    · have hnot : ¬ (minSpeechFrames o ≤ st.speechFrameCount + 1) :=
        fun hle => hB ⟨hsp, hle⟩
      simp [hnot]
    · simp

theorem pf_inter_step (o : VadOptions) (ho1 : o.adaptiveThreshold = false)
    (ho2 : o.confidenceEnabled = false) (st : VadState) (buf : List ℕ) (off fsz : ℕ)
    (h1 : ¬ (st.speechThreshold ≤ computeRms buf off fsz))
    (h2 : ¬ (computeRms buf off fsz ≤ st.releaseThreshold)) :
    (processFrame o st buf off fsz).2.1 = FrameTag.intermediate ∧
    (processFrame o st buf off fsz).1.speechThreshold = st.speechThreshold ∧
    (processFrame o st buf off fsz).1.releaseThreshold = st.releaseThreshold ∧
    (processFrame o st buf off fsz).1.speechFrameCount = st.speechFrameCount - 1 ∧
    (processFrame o st buf off fsz).1.speaking = st.speaking := by
  rw [processFrame_simple o ho1 ho2 st buf off fsz]
  unfold speechLogic
  dsimp only
  rw [if_neg h1, if_neg h2]
  exact ⟨rfl, rfl, rfl, rfl, rfl⟩

theorem rms600 : computeRms [88, 2] 0 1 = (600 : ℝ) / 32768 := by
  have hd : decode16 88 2 = 600 := by norm_num [decode16]
  rw [computeRms_pair 88 2 (by norm_num [decode16]), hd]
  norm_num

theorem rms300 : computeRms [44, 1] 0 1 = (300 : ℝ) / 32768 := by
  have hd : decode16 44 1 = 300 := by norm_num [decode16]
  rw [computeRms_pair 44 1 (by norm_num [decode16]), hd]
  norm_num

theorem minSpeechFrames_o8 : minSpeechFrames o8 = 3 := by
  simp only [minSpeechFrames, o8]
  norm_num
  rfl

/-- One 600-sample frame under `o8` from a 0.015/0.008-threshold state:
qualifying (rms ≈ 0.0183). -/
theorem vad600Step (st : VadState) (hth : st.speechThreshold = 0.015)
    (hrl : st.releaseThreshold = 0.008) :
    (processFrame o8 st [88, 2] 0 1).2.1 = FrameTag.qualifying ∧
    (processFrame o8 st [88, 2] 0 1).1.speechThreshold = 0.015 ∧
    (processFrame o8 st [88, 2] 0 1).1.releaseThreshold = 0.008 ∧
    (processFrame o8 st [88, 2] 0 1).1.speechFrameCount = st.speechFrameCount + 1 ∧
    (processFrame o8 st [88, 2] 0 1).1.speaking =
      (st.speaking || decide (3 ≤ st.speechFrameCount + 1)) := by
  have h := pf_qual_step o8 rfl rfl st [88, 2] 0 1
    (by rw [hth, rms600]; norm_num)
  refine ⟨h.1, ?_, ?_, h.2.2.2.1, ?_⟩
  · rw [h.2.1, hth]
  · rw [h.2.2.1, hrl]
  · rw [h.2.2.2.2, minSpeechFrames_o8]

/-- One 300-sample frame under `o8` from a 0.015/0.008-threshold state:
intermediate (0.008 < rms ≈ 0.00916 < 0.015). -/
theorem vad300Step (st : VadState) (hth : st.speechThreshold = 0.015)
    (hrl : st.releaseThreshold = 0.008) :
    (processFrame o8 st [44, 1] 0 1).2.1 = FrameTag.intermediate ∧
    (processFrame o8 st [44, 1] 0 1).1.speechThreshold = 0.015 ∧
    (processFrame o8 st [44, 1] 0 1).1.releaseThreshold = 0.008 ∧
    (processFrame o8 st [44, 1] 0 1).1.speechFrameCount = st.speechFrameCount - 1 ∧
    (processFrame o8 st [44, 1] 0 1).1.speaking = st.speaking := by
  have h := pf_inter_step o8 rfl rfl st [44, 1] 0 1
    (by rw [hth, rms300]; norm_num)
    (by rw [hrl, rms300]; norm_num)
  refine ⟨h.1, ?_, ?_, h.2.2.2.1, h.2.2.2.2⟩
  · rw [h.2.1, hth]
  · rw [h.2.2.1, hrl]

/-- C8 counterexample: under `o8` (three qualifying frames required), the
frame sequence 600, 600, 300, 600, 600 — tagged qualifying, qualifying,
intermediate, qualifying, qualifying — transitions to `speaking = true` at
the fifth frame although at no point did three *consecutive* frames have rms
at or above the effective threshold; the intermediate frame only decayed the
counter by one.  The last conjunct grounds the frame granularity:
`processAudio` on one 2-byte chunk is exactly one `processFrame` call. -/
theorem c8_nonconsecutive_counterexample :
    vadTagsF o8 (initVad o8) frames8 =
      [FrameTag.qualifying, FrameTag.qualifying, FrameTag.intermediate,
       FrameTag.qualifying, FrameTag.qualifying] ∧
    (vadStepsF o8 (initVad o8) (frames8.take 4)).speaking = false ∧
    (vadStepsF o8 (initVad o8) frames8).speaking = true ∧
    minSpeechFrames o8 = 3 ∧
    processAudio o8 (initVad o8) [88, 2] =
      ((processFrame o8 (initVad o8) [88, 2] 0 1).1,
       (processFrame o8 (initVad o8) [88, 2] 0 1).2.2) := by
  have q1 := vad600Step (initVad o8) rfl rfl
  set s1 := (processFrame o8 (initVad o8) [88, 2] 0 1).1 with hs1def
  have q2 := vad600Step s1 q1.2.1 q1.2.2.1
  set s2 := (processFrame o8 s1 [88, 2] 0 1).1 with hs2def
  have q3 := vad300Step s2 q2.2.1 q2.2.2.1
  set s3 := (processFrame o8 s2 [44, 1] 0 1).1 with hs3def
  have q4 := vad600Step s3 q3.2.1 q3.2.2.1
  set s4 := (processFrame o8 s3 [88, 2] 0 1).1 with hs4def
  have q5 := vad600Step s4 q4.2.1 q4.2.2.1
  have c1 : s1.speechFrameCount = 1 := by rw [q1.2.2.2.1]; rfl
  have k1 : s1.speaking = false := by rw [q1.2.2.2.2]; rfl
  have c2 : s2.speechFrameCount = 2 := by rw [q2.2.2.2.1, c1]
  have k2 : s2.speaking = false := by rw [q2.2.2.2.2, k1, c1]; rfl
  have c3 : s3.speechFrameCount = 1 := by rw [q3.2.2.2.1, c2]
  have k3 : s3.speaking = false := by rw [q3.2.2.2.2, k2]
  have c4 : s4.speechFrameCount = 2 := by rw [q4.2.2.2.1, c3]
  have k4 : s4.speaking = false := by rw [q4.2.2.2.2, k3, c3]; rfl
  have k5 : (processFrame o8 s4 [88, 2] 0 1).1.speaking = true := by
    rw [q5.2.2.2.2, k4, c4]
    rfl
  refine ⟨?_, ?_, ?_, minSpeechFrames_o8, ?_⟩
  · show (processFrame o8 (initVad o8) [88, 2] 0 1).2.1 ::
      (processFrame o8 s1 [88, 2] 0 1).2.1 ::
      (processFrame o8 s2 [44, 1] 0 1).2.1 ::
      (processFrame o8 s3 [88, 2] 0 1).2.1 ::
      (processFrame o8 s4 [88, 2] 0 1).2.1 :: [] = _
    rw [q1.1, q2.1, q3.1, q4.1, q5.1]
  · show s4.speaking = false
    exact k4
  · show (processFrame o8 s4 [88, 2] 0 1).1.speaking = true
    exact k5
  · have hfs : frameSamples o8 = 1 := by
      simp only [frameSamples, o8]
      norm_num
    simp [processAudio, hfs, List.range_succ]

/-- Witness for `c8_transition_requires_count`: three consecutive 600-sample
frames under `o8` transition at frame index 2, and indeed at least three
qualifying frames occurred. -/
theorem c8_transition_requires_count_witness :
    ((initVad o8).speechFrameCount = 0) ∧
    ((vadStepsF o8 (initVad o8)
        (([([88, 2], 0, 1), ([88, 2], 0, 1), ([88, 2], 0, 1)] : List FrameSpec).take 2)).speaking
      = false) ∧
    ((vadStepsF o8 (initVad o8)
        (([([88, 2], 0, 1), ([88, 2], 0, 1), ([88, 2], 0, 1)] : List FrameSpec).take 3)).speaking
      = true) ∧
    (minSpeechFrames o8 ≤ countQualifying (vadTagsF o8 (initVad o8)
        (([([88, 2], 0, 1), ([88, 2], 0, 1), ([88, 2], 0, 1)] : List FrameSpec).take 3))) := by
  have q1 := vad600Step (initVad o8) rfl rfl
  set s1 := (processFrame o8 (initVad o8) [88, 2] 0 1).1 with hs1def
  have q2 := vad600Step s1 q1.2.1 q1.2.2.1
  set s2 := (processFrame o8 s1 [88, 2] 0 1).1 with hs2def
  have q3 := vad600Step s2 q2.2.1 q2.2.2.1
  have c1 : s1.speechFrameCount = 1 := by rw [q1.2.2.2.1]; rfl
  have k1 : s1.speaking = false := by rw [q1.2.2.2.2]; rfl
  have c2 : s2.speechFrameCount = 2 := by rw [q2.2.2.2.1, c1]
  have k2 : s2.speaking = false := by rw [q2.2.2.2.2, k1, c1]; rfl
  have k3 : (processFrame o8 s2 [88, 2] 0 1).1.speaking = true := by
    rw [q3.2.2.2.2, k2, c2]
    rfl
  have hns : (vadStepsF o8 (initVad o8)
      (([([88, 2], 0, 1), ([88, 2], 0, 1), ([88, 2], 0, 1)] : List FrameSpec).take 2)).speaking
      = false := by
    show s2.speaking = false
    exact k2
  have hs : (vadStepsF o8 (initVad o8)
      (([([88, 2], 0, 1), ([88, 2], 0, 1), ([88, 2], 0, 1)] : List FrameSpec).take 3)).speaking
      = true := by
    show (processFrame o8 s2 [88, 2] 0 1).1.speaking = true
    exact k3
  exact ⟨rfl, hns, hs,
    c8_transition_requires_count o8 (initVad o8)
      [([88, 2], 0, 1), ([88, 2], 0, 1), ([88, 2], 0, 1)] 2 rfl hns hs⟩

/-! ## C2: barge-in authorization -/

/-- C2 (amended): a speech-start whose interrupter is not the human and whose
priority is *not greater than or equal to* that of some remaining
interruptible target changes nothing beyond the speaking-flag bookkeeping:
`initiateBargeIn` authorizes with `interrupterPriority >= targetPriority`
(not strictly greater — see `c2_equal_priority_counterexample`), or the
human. -/
theorem c2_authorization (m : BargeInManager) (s : SpeakerId) (c : ℚ) (now : ℕ)
    (hunauth : ¬ (s = .you ∨ ∀ t ∈ remainingTargets (markSpeaking m s now) s,
        getPriorityLevel (markSpeaking m s now) t ≤
          getPriorityLevel (markSpeaking m s now) s)) :
    onSpeechStart m s c now = (markSpeaking m s now, []) := by
  push_neg at hunauth
  obtain ⟨hnotyou, t, htmem, hprio⟩ := hunauth
  unfold onSpeechStart
  by_cases hcond : ((getActiveSpeakers (markSpeaking m s now)).filter (fun x => x ≠ s) ≠ [] ∧
      (markSpeaking m s now).config.mode ≠ .disabled)
  · rw [if_pos hcond]
    have hfalse : (remainingTargets (markSpeaking m s now) s).all
        (fun t => decide (getPriorityLevel (markSpeaking m s now) t ≤
            getPriorityLevel (markSpeaking m s now) s) || decide (s = .you)) = false := by
      rw [List.all_eq_false]
      refine ⟨t, htmem, ?_⟩
      simp [hnotyou, hprio]
    have hne : ¬ (remainingTargets (markSpeaking m s now) s = []) := by
      intro h
      rw [h] at htmem
      exact absurd htmem (List.not_mem_nil t)
    unfold remainingTargets at hfalse hne
    simp only [initiateBargeIn]
    rw [if_neg hne, if_pos hfalse]
  · rw [if_neg hcond]

/-- C2 counterexample: with every speaker at the default `medium` priority,
agent `claude` starting to speak while agent `guest` (equal priority, 50)
is speaking *does* proceed — a pending barge-in with interrupter `claude`
is armed and the ducking-on request for `guest` is issued — although the
claim says an agent whose priority equals the target's is not authorized. -/
theorem c2_equal_priority_counterexample :
    ((bargeRun (initBargeIn defaultBargeInConfig)
        [(0, .speechStart .guest (9/10)), (0, .speechStart .claude (9/10))]).1.pendingBargeIn.map
          PendingBargeIn.interrupter = some .claude) ∧
    ((bargeRun (initBargeIn defaultBargeInConfig)
        [(0, .speechStart .guest (9/10)), (0, .speechStart .claude (9/10))]).2 =
          [.duckingRequest [.guest] true]) ∧
    (getPriorityLevel (bargeRun (initBargeIn defaultBargeInConfig)
        [(0, .speechStart .guest (9/10)), (0, .speechStart .claude (9/10))]).1 .claude =
      getPriorityLevel (bargeRun (initBargeIn defaultBargeInConfig)
        [(0, .speechStart .guest (9/10)), (0, .speechStart .claude (9/10))]).1 .guest) :=
  ⟨rfl, rfl, rfl⟩

/-- The manager state for the `c2_authorization` witness: `claude` demoted to
`low` priority, `guest` speaking at the default `medium`. -/
def mgrW : BargeInManager :=
  (bargeRun (initBargeIn defaultBargeInConfig)
    [(0, .setPriority .claude .low), (0, .speechStart .guest (9/10))]).1

/-- Witness for `c2_authorization`: low-priority `claude` starting to speak
over medium-priority `guest` is not authorized and changes nothing beyond
the speaking flag. -/
theorem c2_authorization_witness :
    (¬ ((SpeakerId.claude = .you) ∨
        ∀ t ∈ remainingTargets (markSpeaking mgrW .claude 5) .claude,
          getPriorityLevel (markSpeaking mgrW .claude 5) t ≤
            getPriorityLevel (markSpeaking mgrW .claude 5) .claude)) ∧
    onSpeechStart mgrW .claude (1/2) 5 = (markSpeaking mgrW .claude 5, []) :=
  ⟨by decide, c2_authorization mgrW .claude (1/2) 5 (by decide)⟩

/-! ## C3: graceful cancellation and the missing ducking-off -/

/-- The concrete barge-in-cancellation scenario from the spec: `claude`
speaking, human speech-start at t=0 (confidence 0.85), human speech-end at
t=150, before the 300 ms grace timer fires. -/
def c3Events : List (ℕ × BargeInInput) :=
  [(0, .speechStart .claude (9/10)),
   (0, .speechStart .you (17/20)),
   (150, .speechEnd .you (17/20))]

/-- C3: in graceful mode with ducking enabled, the speech-end before the
grace expiry cancels the pending barge-in — the grace timer is cleared,
`onBargeInCancelled` fires, a cancelled event (and never a start or complete
event) is recorded — but the ducking-off request the claim (and the repo's
own test) expects is *never issued*: the only ducking request in the fired
callbacks is the ducking-on for `claude`, because the ducking-off call lives
only inside the timer callback that the cancellation just cleared.  A
subsequently firing timer is a no-op. -/
theorem c3_cancellation_bug :
    ((bargeRun (initBargeIn defaultBargeInConfig) c3Events).1.graceTimer.isNone = true) ∧
    ((bargeRun (initBargeIn defaultBargeInConfig) c3Events).1.pendingBargeIn.isNone = true) ∧
    ((bargeRun (initBargeIn defaultBargeInConfig) c3Events).1.bargeInHistory.map
        BargeInEvent.type = [.cancelled]) ∧
    ((bargeRun (initBargeIn defaultBargeInConfig) c3Events).2 =
        [.duckingRequest [.claude] true, .bargeInCancelled]) ∧
    (onGraceTimerFire (bargeRun (initBargeIn defaultBargeInConfig) c3Events).1 300 =
        ((bargeRun (initBargeIn defaultBargeInConfig) c3Events).1, [])) :=
  ⟨rfl, rfl, rfl, rfl, rfl⟩

/-- Witness for `c1_processBuffer_even`: a 4-byte buffer (samples 1000, 1000)
entering a linear 4-sample ramp from gain 1 to 0; position `j = 1` is read
mid-ramp. -/
theorem c1_processBuffer_even_witness :
    (bufW.length % 2 = 0) ∧
    (∀ b ∈ bufW, b < 256) ∧
    (rampW.active = true → rampW.elapsedSamples < rampW.rampSamples) ∧
    (1 < bufW.length / 2) ∧
    ((processBuffer rampW bufW).2 = .ok (duckedOut rampW bufW) ∧
     (duckedOut rampW bufW).length = bufW.length ∧
     readAt (duckedOut rampW bufW) 1 =
       clamp16 (jsRound ((readAt bufW 1 : ℚ) * gainAtPos rampW 1)) ∧
     (rampW.active = false ∧ rampW.currentGain = 1 → duckedOut rampW bufW = bufW)) :=
  ⟨by decide, by decide, by decide, by decide,
   c1_processBuffer_even rampW bufW 1 (by decide) (by decide) (by decide) (by decide)⟩

/-! ## C4: command router decisions -/


theorem findSome?_some {α β : Type} (f : α → Option β) :
    ∀ (l : List α) (b : β), l.findSome? f = some b → ∃ a ∈ l, f a = some b := by
  intro l
  induction l with
  | nil => intro b h; simp [List.findSome?] at h
  | cons x xs ih =>
    intro b h
    rw [List.findSome?_cons] at h
    split at h
    · rename_i v hv
      exact ⟨x, List.mem_cons_self x xs, hv.trans h⟩
    · rename_i hv
      obtain ⟨a, ha, hfa⟩ := ih b h
      exact ⟨a, List.mem_cons_of_mem x ha, hfa⟩

theorem bargeInPatternHit_mem (s : List Char) (c : ℚ) (h : bargeInPatternHit s = some c) :
    0 ≤ c ∧ c ≤ 1 := by
  unfold bargeInPatternHit at h
  split at h
  · simp only [Option.some.injEq] at h
    subst h
    norm_num
  split at h
  · simp only [Option.some.injEq] at h
    subst h
    norm_num
  split at h
  · simp only [Option.some.injEq] at h
    subst h
    norm_num
  · cases h

theorem duckingPatternHit_mem (s : List Char) (c : ℚ) (h : duckingPatternHit s = some c) :
    0 ≤ c ∧ c ≤ 1 := by
  unfold duckingPatternHit at h
  split at h
  · simp only [Option.some.injEq] at h
    subst h
    norm_num
  split at h
  · simp only [Option.some.injEq] at h
    subst h
    norm_num
  split at h
  · simp only [Option.some.injEq] at h
    subst h
    norm_num
  · cases h

theorem detectBargeInControl_props (s : List Char) (ctx : CommandContextM)
    (r : CommandRouteResult) (h : detectBargeInControl s ctx = some r) :
    (0 ≤ r.confidence ∧ r.confidence ≤ 1) ∧ r.action = CommandAction.bargeInControl := by
  unfold detectBargeInControl at h
  cases hp : bargeInPatternHit s with
  | none => rw [hp] at h; cases h
  | some c =>
    rw [hp] at h
    simp only [Option.some.injEq] at h
    subst h
    exact ⟨bargeInPatternHit_mem s c hp, rfl⟩

theorem detectDuckingControl_props (s : List Char) (ctx : CommandContextM)
    (r : CommandRouteResult) (h : detectDuckingControl s ctx = some r) :
    (0 ≤ r.confidence ∧ r.confidence ≤ 1) ∧ r.action = CommandAction.duckingControl := by
  unfold detectDuckingControl at h
  cases hp : duckingPatternHit s with
  | none => rw [hp] at h; cases h
  | some c =>
    rw [hp] at h
    simp only [Option.some.injEq] at h
    subst h
    exact ⟨duckingPatternHit_mem s c hp, rfl⟩

theorem fuzzyTryWord_mem (word : List Char) (kw : List Char) (c : ℚ)
    (h : fuzzyTryWord word = some (kw, c)) : 6/10 ≤ c ∧ c ≤ 1 := by
  unfold fuzzyTryWord at h
  obtain ⟨k, _, hk⟩ := findSome?_some _ _ _ h
  dsimp only at hk
  split at hk
  · split at hk
    · simp only [Option.some.injEq, Prod.mk.injEq] at hk
      obtain ⟨hk1, hk2⟩ := hk
      subst hk2
      rename_i hge
      refine ⟨hge, ?_⟩
      have hd : (0 : ℚ) ≤ (levenshteinDistance word k : ℚ) / (k.length : ℚ) := by
        positivity
      linarith
    · cases hk
  · cases hk

theorem startsWithKeyword_conf (s : List Char) (a : AddressResult)
    (h : startsWithKeyword s = some a) : a.confidence = 7/10 := by
  unfold startsWithKeyword at h
  obtain ⟨k, _, hk⟩ := findSome?_some _ _ _ h
  split at hk
  · simp only [Option.some.injEq] at hk
    subst hk
    rfl
  · cases hk

theorem inlineAddress_conf (s : List Char) (a : AddressResult)
    (h : inlineAddress s = some a) : a.confidence = 55/100 := by
  unfold inlineAddress at h
  obtain ⟨k, _, hk⟩ := findSome?_some _ _ _ h
  cases hf : inlineFind s k with
  | none => rw [hf] at hk; cases hk
  | some p =>
    rw [hf] at hk
    obtain ⟨i, j⟩ := p
    dsimp only at hk
    split at hk
    · simp only [Option.some.injEq] at hk
      subst hk
      rfl
    · cases hk

theorem fuzzyMatchAddress_conf (s : List Char) (a : AddressResult)
    (h : fuzzyMatchAddress s = some a) : 0 ≤ a.confidence ∧ a.confidence ≤ 1 := by
  unfold fuzzyMatchAddress at h
  obtain ⟨i, _, hi⟩ := findSome?_some _ _ _ h
  cases hf : fuzzyTryWord ((jsSplitWs s).getD i []) with
  | none => rw [hf] at hi; cases hi
  | some p =>
    rw [hf] at hi
    simp only [Option.some.injEq] at hi
    subst hi
    obtain ⟨kw, c⟩ := p
    have hb := fuzzyTryWord_mem _ kw c hf
    constructor
    · have : (0 : ℚ) ≤ c := le_trans (by norm_num) hb.1
      nlinarith
    · nlinarith [hb.1, hb.2]

theorem extractAddress_conf (s : List Char) (a : AddressResult)
    (h : extractAddress s = some a) : 0 ≤ a.confidence ∧ a.confidence ≤ 1 := by
  unfold extractAddress at h
  cases hd : matchDirect s with
  | some p =>
    rw [hd] at h
    simp only [Option.some.injEq] at h
    subst h
    norm_num
  | none =>
    rw [hd] at h
    cases hs : startsWithKeyword s with
    | some r =>
      rw [hs] at h
      simp only [Option.some.injEq] at h
      subst h
      rw [startsWithKeyword_conf s _ hs]
      norm_num
    | none =>
      rw [hs] at h
      cases hi : inlineAddress s with
      | some r =>
        rw [hi] at h
        simp only [Option.some.injEq] at h
        subst h
        rw [inlineAddress_conf s _ hi]
        norm_num
      | none =>
        rw [hi] at h
        exact fuzzyMatchAddress_conf s a h

theorem extractDuration_floor (rem : List Char) (h1 : findSecondsMatch rem = none)
    (h2 : findMinutesMatch rem = none) : 10000 ≤ extractDuration rem := by
  unfold extractDuration
  rw [h1, h2]
  split
  · rename_i j heq
    exact absurd heq (by simp)
  · split
    · rename_i j heq
      exact absurd heq (by simp)
    · split
      · norm_num
      · split
        · norm_num
        · norm_num

theorem routeFinish_props (raw normalized remainder : List Char)
    (addressed : Option AddressResult) (action : CommandAction)
    (finalTargets : List SpeakerId) (ctx : CommandContextM) (r : CommandRouteResult)
    (haddr : ∀ a, addressed = some a → 0 ≤ a.confidence ∧ a.confidence ≤ 1)
    (h : routeFinish raw normalized remainder addressed action finalTargets ctx = some r) :
    (0 ≤ r.confidence ∧ r.confidence ≤ 1) ∧
    (r.action = CommandAction.thinking → r.durationMs = some (extractDuration r.remainder)) := by
  unfold routeFinish at h
  split at h
  · cases h
  · dsimp only at h
    simp only [Option.some.injEq] at h
    subst h
    constructor
    · cases ha : addressed with
      | some a =>
        simp only [ha]
        exact haddr a ha
      | none =>
        simp only [ha]
        split
        · norm_num
        · split
          · norm_num
          · norm_num
    · intro ht
      dsimp only at ht ⊢
      rw [if_pos ht]

theorem routeMain_props (raw s : List Char) (ctx : CommandContextM)
    (r : CommandRouteResult) (h : routeMain raw s ctx = some r) :
    (0 ≤ r.confidence ∧ r.confidence ≤ 1) ∧
    (r.action = CommandAction.thinking → r.durationMs = some (extractDuration r.remainder)) := by
  unfold routeMain at h
  exact routeFinish_props _ _ _ _ _ _ _ _ (fun a ha => extractAddress_conf s a ha) h

/-- C4 (amended): routing is modelled as a pure function of the text and the
context, and for every text `t` and context, a returned decision has
`confidence ∈ [0, 1]`, targets drawn from the closed speaker set
`{you (human), claude (host), guest}`, and, when the action is `thinking`,
`duration_ms = extractDuration remainder`, which is at least 10,000 ms
whenever the remainder names no explicit duration — but an explicit
`N seconds` / `N minutes` is honoured literally, so texts naming fewer than
ten seconds yield `duration_ms < 10000` (see the counterexample). -/
theorem c4_route_decision (text : List Char) (ctx : CommandContextM)
    (r : CommandRouteResult) (h : route text ctx = some r) :
    (0 ≤ r.confidence ∧ r.confidence ≤ 1) ∧
    (∀ sp ∈ r.targets, sp = SpeakerId.you ∨ sp = SpeakerId.claude ∨ sp = SpeakerId.guest) ∧
    (r.action = CommandAction.thinking → r.durationMs = some (extractDuration r.remainder)) ∧
    (findSecondsMatch r.remainder = none → findMinutesMatch r.remainder = none →
      10000 ≤ extractDuration r.remainder) := by
  have htarg : ∀ sp ∈ r.targets, sp = SpeakerId.you ∨ sp = SpeakerId.claude ∨
      sp = SpeakerId.guest := by
    intro sp _
    cases sp
    · exact Or.inl rfl
    · exact Or.inr (Or.inl rfl)
    · exact Or.inr (Or.inr rfl)
  unfold route at h
  dsimp only at h
  split at h
  · cases h
  split at h
  · rename_i rb hb
    simp only [Option.some.injEq] at h
    subst h
    obtain ⟨hc, hact⟩ := detectBargeInControl_props _ _ _ hb
    refine ⟨hc, htarg, ?_, extractDuration_floor _⟩
    intro ht
    rw [hact] at ht
    cases ht
  split at h
  · rename_i rd hd
    simp only [Option.some.injEq] at h
    subst h
    obtain ⟨hc, hact⟩ := detectDuckingControl_props _ _ _ hd
    refine ⟨hc, htarg, ?_, extractDuration_floor _⟩
    intro ht
    rw [hact] at ht
    cases ht
  obtain ⟨hc, hdur⟩ := routeMain_props _ _ _ _ h
  exact ⟨hc, htarg, hdur, extractDuration_floor _⟩

/-- Witness: `"claude, hello"` routes to a direct address of claude with
confidence 0.9, and the theorem's conclusions hold of that decision. -/
theorem c4_route_decision_witness :
    route ("claude, hello".toList) emptyCommandContext = some c4rW ∧
    ((0 ≤ c4rW.confidence ∧ c4rW.confidence ≤ 1) ∧
     (∀ sp ∈ c4rW.targets,
       sp = SpeakerId.you ∨ sp = SpeakerId.claude ∨ sp = SpeakerId.guest) ∧
     (c4rW.action = CommandAction.thinking →
       c4rW.durationMs = some (extractDuration c4rW.remainder)) ∧
     (findSecondsMatch c4rW.remainder = none → findMinutesMatch c4rW.remainder = none →
       10000 ≤ extractDuration c4rW.remainder)) :=
  ⟨rfl, c4_route_decision ("claude, hello".toList) emptyCommandContext c4rW rfl⟩

/-- C4 counterexample: `"claude, think for 5 seconds"` routes to a thinking
command whose `duration_ms` is the literal 5000 < 10,000 — the router honours
explicit short durations, contradicting the unconditional 10,000 ms floor. -/
theorem c4_short_duration_counterexample :
    (route ("claude, think for 5 seconds".toList) emptyCommandContext).map
        (fun r => (r.action, r.durationMs)) =
      some (CommandAction.thinking, some 5000) ∧ (5000 : ℕ) < 10000 :=
  ⟨rfl, by norm_num⟩

end Basil
